import Mathlib

/-!
Verification development for the `phasewall-poc-app` benchmarking harness.

The Python source is shallowly embedded over an arbitrary linear ordered
field `F` standing in for IEEE doubles.  Transcendental float functions
(`np.sqrt`, `np.exp`, `np.cos`, `np.arctan2`, `np.unwrap`) and the seeded
pseudo-random source (`np.random.default_rng`) are abstracted into an `Ops`
record: every definition is parameterised by it, and concrete witnesses
instantiate `F := ℚ` with an exactly-computable square root (exact on
perfect squares, which is also the IEEE behaviour on those inputs) or
`F := ℝ` with `Real.sqrt` where genuine square-root semantics are needed.
Decimal literals of the source are rendered as exact rationals.
Python exceptions are modelled with `Except`, nontermination of `while`
loops with a fuel discipline returning `Option` (`none` = divergence).
-/

namespace PhasewallPoc

variable {F : Type} [LinearOrderedField F]

/-- Vectors (one point / one noise row) are lists of scalars. -/
abbrev Vec (F : Type) := List F

/-- Matrices (a batch of rows) are lists of vectors. -/
abbrev Mat (F : Type) := List (Vec F)

/-- `np.clip(x, lo, hi)` for scalars. -/
def npClip (x lo hi : F) : F := max lo (min x hi)

/-- Sum of squares of the entries of a vector (the square of `np.linalg.norm`). -/
def sumSq (v : Vec F) : F := (v.map (fun x => x * x)).sum

/-- Componentwise sum of two vectors (`numpy` broadcasting on equal shapes). -/
def vecAdd (v w : Vec F) : Vec F := (v.zip w).map (fun p => p.1 + p.2)

/-- Componentwise difference of two vectors. -/
def vecSub (v w : Vec F) : Vec F := (v.zip w).map (fun p => p.1 - p.2)

/-- Dot product of two vectors. -/
def dotF (v w : Vec F) : F := ((v.zip w).map (fun p => p.1 * p.2)).sum

/-- Scale a vector by a scalar. -/
def vecScale (c : F) (v : Vec F) : Vec F := v.map (fun x => c * x)

/-- Componentwise sum of two matrices. -/
def matAdd (a b : Mat F) : Mat F := (a.zip b).map (fun p => vecAdd p.1 p.2)

/-- Scale every entry of a matrix. -/
def matScale (c : F) (a : Mat F) : Mat F := a.map (vecScale c)

/-- `np.mean` of a list of scalars; `0` on the empty list (numpy yields NaN
there, callers in the embedded code never reach that case where it matters). -/
def meanF (l : List F) : F := l.sum / (l.length : F)

/-- Stable insertion into an ascending list, equal elements kept in input
order (models the stability of Python's `sorted` / `list.sort`). -/
def insSorted (le : α → α → Bool) (x : α) : List α → List α
  | [] => [x]
  | y :: ys => if le y x then y :: insSorted le x ys else x :: y :: ys

/-- Stable ascending sort by the boolean relation `le`. -/
def sortLe (le : α → α → Bool) (l : List α) : List α :=
  l.foldl (fun acc x => insSorted le x acc) []

/-- `np.median`: sort ascending, middle element for odd length, mean of the
two middle elements for even length.  `0` on the empty list (numpy: NaN;
unreachable through the embedded call sites, whose groups are nonempty). -/
def medianF (l : List F) : F :=
  let s := sortLe (fun a b => decide (a ≤ b)) l
  let n := l.length
  if n = 0 then 0
  else if n % 2 = 1 then s.getD (n / 2) 0
  else (s.getD (n / 2 - 1) 0 + s.getD (n / 2) 0) / 2

/-- `np.std` (population standard deviation), with `sq` standing for the
float square root. -/
def stdF (sq : F → F) (l : List F) : F :=
  let m := meanF l
  sq (meanF (l.map (fun x => (x - m) * (x - m))))

/-! ## phasewall.py -/

/-- One row of `apply_phase_wall_z` (phasewall.py lines 16-21), after the
strength has been clipped: rows whose norm exceeds `r0` are rescaled by
`clip(1 - strength*(1 - r0/norm), 0, 1)`, other rows pass unchanged. -/
def pwRow (sq : F → F) (r0 s' : F) (row : Vec F) : Vec F :=
  let n := sq (sumSq row)
  if r0 < n then
    let scale := npClip (1 - s' * (1 - r0 / n)) 0 1
    row.map (fun x => scale * x)
  else row

/-- `apply_phase_wall_z` (phasewall.py lines 8-25), 2-D input path.  The
strength is clipped into `[0,1]` once up front, then each row is treated
independently (the `outside` mask of the source acts row-wise). -/
def applyPhaseWallZ (sq : F → F) (z : Mat F) (r0 strength : F) : Mat F :=
  let s' := npClip strength 0 1
  z.map (pwRow sq r0 s')

/-- `apply_phase_wall_z` on a single vector (the `ndim == 1` path of the
source, which wraps the vector into a one-row matrix and unwraps it). -/
def applyPhaseWallZVec (sq : F → F) (z : Vec F) (r0 strength : F) : Vec F :=
  pwRow sq r0 (npClip strength 0 1) z

/-- One row of `hard_project_to_radius` (phasewall.py lines 28-37). -/
def hardProjectRow (sq : F → F) (r0 : F) (row : Vec F) : Vec F :=
  let n := sq (sumSq row)
  if r0 < n then row.map (fun x => r0 / n * x) else row

/-- `hard_project_to_radius` (phasewall.py lines 28-37), 2-D input path. -/
def hardProjectToRadius (sq : F → F) (z : Mat F) (r0 : F) : Mat F :=
  z.map (hardProjectRow sq r0)

/-- `decompose_radial_tangential` (phasewall.py lines 40-50) on one
(vector, position) pair: radial and tangential components of `v` relative
to the position `p`, with the `eps = 1e-12` guard on the position norm. -/
def decomposeRadTan (sq : F → F) (v p : Vec F) : Vec F × Vec F :=
  let nrm := sq (sumSq p)
  let safe := if 1 / 10 ^ 12 < nrm then nrm else 1
  let radialHat := p.map (fun x => x / safe)
  let radialMag := dotF v radialHat
  let radial := radialHat.map (fun x => radialMag * x)
  (radial, vecSub v radial)

/-- `phase_aware_noise` (phasewall.py lines 53-78): rows of `noise` whose
position lies outside radius `r0` are reshaped, damping the tangential
component and boosting the inward radial component. -/
def phaseAwareNoise (sq : F → F) (positions noise : Mat F)
    (r0 strength tangentialDamping radialBoost : F) : Mat F :=
  let s' := npClip strength 0 1
  (positions.zip noise).map (fun pn =>
    let r := sq (sumSq pn.1)
    if r0 < r then
      let rt := decomposeRadTan sq pn.2 pn.1
      let inward := rt.1.map (fun x => -x)
      vecAdd (vecAdd rt.1 (vecScale (s' * radialBoost) inward))
        (vecScale (1 - s' * tangentialDamping) rt.2)
    else pn.2)

/-! ## geometry.py -/

/-- Errors raised by the embedded Python code; each constructor carries the
offending value of the corresponding exception message. -/
inductive SimError where
  | unsupportedPreset (preset : String)
  | expectedWalkerEngine (engine : String)
  | unsupportedEngine (engine : String)
  | keyError (objective : String)
  | pointsNeedTwoDims
  | emptyReduce
deriving DecidableEq

/-- `gaussian_gradient` (geometry.py lines 13-25): gradient of the Gaussian
hill in the first two coordinates; raises when rows have fewer than two
entries.  `exp` stands for the float exponential. -/
def gaussianGradient (exp : F → F) (pts : Mat F) (sigma : F) :
    Except SimError (Mat F) :=
  if pts.any (fun row => row.length < 2) then .error .pointsNeedTwoDims
  else .ok (pts.map (fun row =>
    let x0 := row.getD 0 0
    let x1 := row.getD 1 0
    let r2 := x0 * x0 + x1 * x1
    let base := exp (-r2 / (2 * sigma ^ 2))
    (-(x0 / sigma ^ 2) * base) :: (-(x1 / sigma ^ 2) * base) ::
      (row.drop 2).map (fun _ => (0 : F))))

/-- `compute_curvature_sign` (geometry.py lines 28-34) on one radius:
`+1` when `sigma^2 - r^2 > tol`, `-1` when `sigma^2 - r^2 < -tol`,
`0` otherwise (the defaults are `sigma = 1`, `tol = 1e-10`). -/
def computeCurvatureSign (r sigma tol : F) : Int :=
  let val := sigma ^ 2 - r ^ 2
  if tol < val then 1 else if val < -tol then -1 else 0

/-- Exact rational square root used by executable witnesses: correct on
rationals whose numerator and denominator are perfect squares (where IEEE
`sqrt` is also exact), and otherwise an unspecified stand-in. -/
def ratSqrt (q : ℚ) : ℚ := (Nat.sqrt q.num.toNat : ℚ) / (Nat.sqrt q.den : ℚ)

/-! ## Abstracted float and random primitives -/

/-- The mathematical and random primitives the harness consumes.  `stream`
models `np.random.default_rng(seed)`: for each integer seed, the infinite
deterministic sequence of raw draws that generator will output.  `unwrap2
a b` models the second row of `np.unwrap(np.stack([a, b]))`, and `inf`
models the float `inf` literal (used only as the initial best score). -/
structure Ops (F : Type) where
  sqrt : F → F
  exp : F → F
  cos : F → F
  pi : F
  atan2 : F → F → F
  unwrap2 : F → F → F
  inf : F
  stream : Int → Nat → F

/-- A generator state: the seed-determined raw stream plus a cursor.  All
randomness of an embedded run is derived from the seed this was built
from, mirroring the per-run `np.random.default_rng(seed)` calls. -/
structure Rng (F : Type) where
  stream : Nat → F
  pos : Nat

/-- `np.random.default_rng(seed)`. -/
def mkRng (ops : Ops F) (seed : Int) : Rng F := ⟨ops.stream seed, 0⟩

/-- Pull one raw draw. -/
def Rng.next (g : Rng F) : F × Rng F := (g.stream g.pos, ⟨g.stream, g.pos + 1⟩)

/-- Pull `k` raw draws in order. -/
def drawVecF (g : Rng F) : Nat → Vec F × Rng F
  | 0 => ([], g)
  | k + 1 =>
    let (x, g') := g.next
    let (xs, g'') := drawVecF g' k
    (x :: xs, g'')

/-- Pull a `rows × cols` matrix of raw draws, row-major as numpy fills
C-ordered arrays. -/
def drawMatF (g : Rng F) : Nat → Nat → Mat F × Rng F
  | 0, _ => ([], g)
  | r + 1, cols =>
    let (row, g') := drawVecF g cols
    let (rest, g'') := drawMatF g' r cols
    (row :: rest, g'')

/-! ## config.py -/

/-- `ScenarioConfig` (config.py lines 13-25), the immutable description of
one experiment. -/
structure ScenarioConfig (F : Type) where
  name : String
  dim : Nat
  noiseStd : F
  stepsOrEvals : Nat
  seeds : List Int
  phasewallStrength : F
  engine : String
  objective : String
  populationSize : Nat
  nAgents : Nat
  sigma : F
deriving DecidableEq

/-- `RunResult` (config.py lines 31-38), one simulation outcome. -/
structure RunResult (F : Type) where
  scenarioName : String
  engine : String
  method : String
  seed : Int
  score : F
  metrics : List (String × F)
deriving DecidableEq

/-- `AggregateResult` (config.py lines 41-54); the three statistics the
source initialises to `float("nan")` are modelled as `Option` fields with
`none` as the NaN sentinel. -/
structure AggregateResult (F : Type) where
  scenarioName : String
  engine : String
  method : String
  n : Nat
  medianScore : F
  meanScore : F
  stdScore : F
  ciLow : F
  ciHigh : F
  winRate : Option F
  ratioVsVanilla : Option F
  wilcoxonP : Option F
deriving DecidableEq

/-- `make_seed_list` (config.py lines 61-62). -/
def makeSeedList (seedCount : Nat) (baseSeed : Int) : List Int :=
  (List.range seedCount).map (fun i => baseSeed + i)

/-! ## sim_walkers.py -/

/-- `WalkerTrace` (sim_walkers.py lines 12-19). -/
structure WalkerTrace (F : Type) where
  trajectories : List (Mat F)
  radii : List (Vec F)
  escapeRate : F
  insideFraction : F
  angularDispersion : F
  score : F
deriving DecidableEq

/-- `_init_positions` (sim_walkers.py lines 22-26): unit directions from
normal draws (norm guarded by `1e-12`), scaled by `uniform(1.1, 2.5)`
radii. -/
def initPositions (ops : Ops F) (nAgents dim : Nat) (g : Rng F) :
    Mat F × Rng F :=
  let (vecs, g1) := drawMatF g nAgents dim
  let normed := vecs.map (fun v =>
    let nv := ops.sqrt (sumSq v) + 1 / 10 ^ 12
    v.map (fun x => x / nv))
  let (us, g2) := drawVecF g1 nAgents
  let radii0 := us.map (fun u => 11 / 10 + (5 / 2 - 11 / 10) * u)
  ((normed.zip radii0).map (fun p => p.1.map (fun x => p.2 * x)), g2)

/-- The position update of one walker step (sim_walkers.py lines 53-68):
optionally reshape the raw noise, take the `0.28 * grad + noise` step, and
if the perturbation is enabled clamp the result with `apply_phase_wall_z`
at the hard-coded `strength=1.0` of source line 68 (the configured
`phasewall_strength` only enters the noise reshaping). -/
def walkerStepPos (ops : Ops F) (enabled : Bool) (sigma strength : F)
    (positions noiseRaw : Mat F) : Except SimError (Mat F) :=
  match gaussianGradient ops.exp positions sigma with
  | .error e => .error e
  | .ok grad =>
    let noise := if enabled then
        phaseAwareNoise ops.sqrt positions noiseRaw sigma strength (8 / 10) (1 / 4)
      else noiseRaw
    let moved := matAdd positions (matAdd (matScale (28 / 100) grad) noise)
    .ok (if enabled then applyPhaseWallZ ops.sqrt moved sigma 1 else moved)

/-- Mutable state of the `_simulate` loop. -/
structure WalkerSt (F : Type) where
  positions : Mat F
  g : Rng F
  escapes : Nat
  inside : Nat
  angles : List F
  trajRev : List (Mat F)
  radiiRev : List (Vec F)

/-- The `for t in range(1, steps+1)` loop of `_simulate` (sim_walkers.py
lines 52-84), by recursion on the remaining step count. -/
def walkerLoop (ops : Ops F) (nAgents dim : Nat) (noiseStd sigma strength : F)
    (enabled : Bool) : Nat → WalkerSt F → Except SimError (WalkerSt F)
  | 0, st => .ok st
  | k + 1, st =>
    let prev := st.positions
    let (nd, g') := drawMatF st.g nAgents dim
    let noiseRaw := nd.map (fun row => row.map (fun x => noiseStd * x))
    match walkerStepPos ops enabled sigma strength prev noiseRaw with
    | .error e => .error e
    | .ok pos' =>
      let prevR := prev.map (fun row => ops.sqrt (sumSq row))
      let currR := pos'.map (fun row => ops.sqrt (sumSq row))
      let escaped := (prevR.zip currR).countP
        (fun pr => decide (pr.1 ≤ sigma) && decide (sigma < pr.2))
      let insideAdd := prevR.countP (fun x => decide (x ≤ sigma))
      let prevAng := prev.map (fun row => ops.atan2 (row.getD 1 0) (row.getD 0 0))
      let currAng := pos'.map (fun row => ops.atan2 (row.getD 1 0) (row.getD 0 0))
      let deltas := (prevAng.zip currAng).map
        (fun pr => |ops.unwrap2 pr.1 pr.2 - pr.1|)
      walkerLoop ops nAgents dim noiseStd sigma strength enabled k
        ⟨pos', g', st.escapes + escaped, st.inside + insideAdd,
          st.angles ++ deltas, pos' :: st.trajRev, currR :: st.radiiRev⟩

/-- `_simulate` (sim_walkers.py lines 29-98). -/
def walkerSimulate (ops : Ops F) (dim nAgents steps : Nat) (noiseStd : F)
    (seed : Int) (enabled : Bool) (strength sigma : F) :
    Except SimError (WalkerTrace F) :=
  let g0 := mkRng ops seed
  let (positions0, g1) := initPositions ops nAgents dim g0
  let radii0 := positions0.map (fun row => ops.sqrt (sumSq row))
  match walkerLoop ops nAgents dim noiseStd sigma strength enabled steps
      ⟨positions0, g1, 0, 0, [], [positions0], [radii0]⟩ with
  | .error e => .error e
  | .ok st =>
    let lastRadii := st.radiiRev.headD []
    .ok
      { trajectories := st.trajRev.reverse
        radii := st.radiiRev.reverse
        escapeRate := (st.escapes : F) / ((max 1 st.inside : Nat) : F)
        insideFraction :=
          meanF (lastRadii.map (fun r => if r ≤ sigma then (1 : F) else 0))
        angularDispersion := stdF ops.sqrt st.angles
        score := meanF lastRadii }

/-- The `RunResult` built for one walker run (sim_walkers.py lines 168-181). -/
def walkerRunResult (cfg : ScenarioConfig F) (method : String) (seed : Int)
    (trace : WalkerTrace F) : RunResult F :=
  { scenarioName := cfg.name
    engine := cfg.engine
    method := method
    seed := seed
    score := trace.score
    metrics :=
      [("escape_rate", trace.escapeRate), ("inside_fraction", trace.insideFraction),
       ("angular_dispersion", trace.angularDispersion)] }

/-- The seed/method loops of `run_walker_scenario` (sim_walkers.py lines
155-182): for every seed in order, the `"vanilla"` run then the
`"phasewall"` run. -/
def walkerRuns (ops : Ops F) (cfg : ScenarioConfig F) :
    List Int → Except SimError (List (RunResult F))
  | [] => .ok []
  | sd :: rest =>
    match walkerSimulate ops cfg.dim cfg.nAgents cfg.stepsOrEvals cfg.noiseStd
        sd false cfg.phasewallStrength cfg.sigma with
    | .error e => .error e
    | .ok tV =>
      match walkerSimulate ops cfg.dim cfg.nAgents cfg.stepsOrEvals cfg.noiseStd
          sd true cfg.phasewallStrength cfg.sigma with
      | .error e => .error e
      | .ok tP =>
        match walkerRuns ops cfg rest with
        | .error e => .error e
        | .ok rs =>
          .ok (walkerRunResult cfg "vanilla" sd tV ::
            walkerRunResult cfg "phasewall" sd tP :: rs)

/-- `run_walker_scenario` (sim_walkers.py lines 151-183): fails fast when
the engine is not `"walker"`, naming the offending engine. -/
def runWalkerScenario (ops : Ops F) (cfg : ScenarioConfig F) :
    Except SimError (List (RunResult F)) :=
  if cfg.engine ≠ "walker" then .error (.expectedWalkerEngine cfg.engine)
  else walkerRuns ops cfg cfg.seeds

/-! ## sim_optimizers.py -/

/-- `OptimizerRun` (sim_optimizers.py lines 11-15).  `bestFinal = none`
models the initial `float("inf")`, still present only when no generation
ever ran. -/
structure OptimizerRun (F : Type) where
  bestHistory : List F
  bestFinal : Option F
  evalCount : Nat
deriving DecidableEq

/-- The Rosenbrock sum `Σ 100(x_{i+1} - x_i^2)^2 + (1 - x_i)^2` over
consecutive coordinates (sim_optimizers.py lines 20-22). -/
def rosenTerms : Vec F → F
  | x0 :: x1 :: rest => 100 * (x1 - x0 ^ 2) ^ 2 + (1 - x0) ^ 2 + rosenTerms (x1 :: rest)
  | _ => 0

/-- `OBJECTIVE_MAP` (sim_optimizers.py lines 18-24): lookup by name,
`none` models the `KeyError` on unknown names. -/
def objectiveFn (ops : Ops F) (name : String) : Option (Vec F → F) :=
  if name = "sphere" then some (fun x => sumSq x)
  else if name = "rosenbrock" then some (fun x => rosenTerms x)
  else if name = "rastrigin" then
    some (fun x => 10 * (x.length : F) +
      (x.map (fun xi => xi * xi - 10 * ops.cos (2 * ops.pi * xi))).sum)
  else none

/-- `_evaluate_batch` (sim_optimizers.py lines 27-38): objective lookup
(raising `KeyError` on unknown names before anything else), clipping of the
candidates into `[-50, 50]`, and additive observation noise drawn from the
passed generator only when `noise_std > 0`. -/
def evaluateBatch (ops : Ops F) (objective : String) (noiseStd : F)
    (g : Rng F) (xs : Mat F) : Except SimError (List F × Rng F) :=
  match objectiveFn ops objective with
  | none => .error (.keyError objective)
  | some fn =>
    let safeX := xs.map (fun row => row.map (fun x => npClip x (-50) 50))
    let vals := safeX.map fn
    if 0 < noiseStd then
      let (ds, g') := drawVecF g vals.length
      .ok ((vals.zip ds).map (fun p => p.1 + noiseStd * p.2), g')
    else .ok (vals, g)

/-- Minimum of a list; `none` on the empty list, where `np.min` raises. -/
def listMinF (l : List F) : Option F :=
  match l with
  | [] => none
  | x :: xs => some (xs.foldl min x)

/-- Mean along axis 0 of a list of `dim`-vectors (`np.mean(m, axis=0)`);
the all-zero vector stands in for the NaN row numpy produces on an empty
elite (only reachable with `population_size ≤ 1`). -/
def matColMean (dim : Nat) (m : Mat F) : Vec F :=
  match m with
  | [] => List.replicate dim 0
  | _ => (List.range dim).map (fun j => meanF (m.map (fun row => row.getD j 0)))

/-- Per-dimension population variance along axis 0 (`np.var(m, axis=0)`),
with the same empty-elite stand-in as `matColMean`. -/
def matColVar (dim : Nat) (m : Mat F) : Vec F :=
  match m with
  | [] => List.replicate dim 0
  | _ => (List.range dim).map (fun j =>
      let col := m.map (fun row => row.getD j 0)
      let mu := meanF col
      meanF (col.map (fun x => (x - mu) * (x - mu))))

/-- The post-generation state of one `_run_toy_es` iteration. -/
structure ToyEsGenOut (F : Type) where
  mean : Vec F
  sigma : F
  best : F
  g : Rng F

/-- One generation of the `while` loop body of `_run_toy_es`
(sim_optimizers.py lines 62-83): sample the population, optionally push
the *evaluated* offsets through the phase wall (selection always uses the
un-perturbed `x_tell`), evaluate, update the running best, select the
elite half by noisy score, and recompute mean and step size.  The
candidate sort models `np.argsort` as a stable ascending sort on the
noisy scores (tie order never influences any verified property); an
empty population makes `np.min` raise, modelled by `emptyReduce`. -/
def toyEsGen (ops : Ops F) (objective : String) (dim pop : Nat)
    (noiseStd : F) (enabled : Bool) (strength r0 : F) (mean : Vec F)
    (sigma : F) (best : Option F) (g : Rng F) :
    Except SimError (ToyEsGenOut F) :=
  let (z, g1) := drawMatF g pop dim
  let xTell := z.map (fun zr => vecAdd mean (zr.map (fun x => sigma * x)))
  let xEval := if enabled then
      (applyPhaseWallZ ops.sqrt z r0 strength).map
        (fun zr => vecAdd mean (zr.map (fun x => sigma * x)))
    else xTell
  match evaluateBatch ops objective noiseStd g1 xEval with
  | .error e => .error e
  | .ok (y, g2) =>
    match listMinF y with
    | none => .error .emptyReduce
    | some yMin =>
      let best' := match best with | none => yMin | some b => min b yMin
      let sorted := sortLe (fun a b => decide (a.2 ≤ b.2)) (xTell.zip y)
      let mu := pop / 2
      let elite := (sorted.take mu).map (fun p => p.1)
      let mean' := matColMean dim elite
      let spread :=
        meanF (elite.map (fun e => ops.sqrt (sumSq (vecSub e mean')))) /
          ops.sqrt (dim : F)
      let sigma' := 85 / 100 * sigma + 15 / 100 * max (1 / 1000) spread
      .ok ⟨mean', sigma', best', g2⟩

/-- The `while evals < eval_budget` loop of `_run_toy_es`
(sim_optimizers.py lines 61-84), with a fuel argument bounding the number
of generations; `none` models nontermination. -/
def toyEsLoop (ops : Ops F) (objective : String) (dim budget pop : Nat)
    (noiseStd : F) (enabled : Bool) (strength r0 : F) :
    Nat → Vec F → F → Option F → Nat → List F → Rng F →
    Option (Except SimError (OptimizerRun F))
  | fuel, mean, sigma, best, evals, histRev, g =>
    if evals < budget then
      match fuel with
      | 0 => none
      | f + 1 =>
        match toyEsGen ops objective dim pop noiseStd enabled strength r0
            mean sigma best g with
        | .error e => some (.error e)
        | .ok out =>
          toyEsLoop ops objective dim budget pop noiseStd enabled strength r0
            f out.mean out.sigma (some out.best) (evals + pop)
            (out.best :: histRev) out.g
    else some (.ok ⟨histRev.reverse, best, evals⟩)

/-- `_run_toy_es` (sim_optimizers.py lines 41-85).  The fuel `eval_budget`
covers every terminating execution, since each generation adds
`population_size ≥ 1` evaluations. -/
def runToyEs (ops : Ops F) (objective : String) (dim budget pop : Nat)
    (noiseStd : F) (seed : Int) (enabled : Bool) (strength : F) :
    Option (Except SimError (OptimizerRun F)) :=
  toyEsLoop ops objective dim budget pop noiseStd enabled strength
    (ops.sqrt ((dim : F) - 2 / 3)) budget
    (List.replicate dim 3) 2 none 0 [] (mkRng ops seed)

/-- The mutable state of `CmaesStyleOptimizer` (sim_optimizers.py lines
88-106); `strengthOpt = none` models `phasewall_strength=None`. -/
structure CmaesState (F : Type) where
  dim : Nat
  popSize : Nat
  g : Rng F
  mean : Vec F
  sigma : F
  diagVar : Vec F
  strengthOpt : Option F
  r0 : F

/-- `CmaesStyleOptimizer.__init__` (sim_optimizers.py lines 91-106). -/
def cmaesInit (ops : Ops F) (dim pop : Nat) (seed : Int)
    (strengthOpt : Option F) : CmaesState F :=
  { dim := dim
    popSize := pop
    g := mkRng ops seed
    mean := List.replicate dim 3
    sigma := 2
    diagVar := List.replicate dim 1
    strengthOpt := strengthOpt
    r0 := ops.sqrt ((dim : F) - 2 / 3) }

/-- `CmaesStyleOptimizer.ask` (sim_optimizers.py lines 108-118): sample
one offset from the diagonal model; returns `(x_eval, x_tell)` with the
two equal when no perturbation is configured (the source then returns the
bare `x_tell`, inspected with `isinstance` at the call site). -/
def cmaesAsk (ops : Ops F) (st : CmaesState F) :
    (Vec F × Vec F) × CmaesState F :=
  let ldiag := st.diagVar.map (fun v => ops.sqrt (npClip v (1 / 10 ^ 8) (10 ^ 6)))
  let (z, g') := drawVecF st.g st.dim
  let lz := (ldiag.zip z).map (fun p => p.1 * p.2)
  let xTell := vecAdd st.mean (lz.map (fun x => st.sigma * x))
  match st.strengthOpt with
  | none => ((xTell, xTell), { st with g := g' })
  | some s =>
    let zEval := applyPhaseWallZVec ops.sqrt z st.r0 s
    let lzE := (ldiag.zip zEval).map (fun p => p.1 * p.2)
    ((vecAdd st.mean (lzE.map (fun x => st.sigma * x)), xTell), { st with g := g' })

/-- `CmaesStyleOptimizer.tell` (sim_optimizers.py lines 120-132): stable
sort by score, elite statistics, exponentially smoothed mean / diagonal
variance / step size updates with their clips. -/
def cmaesTell (ops : Ops F) (st : CmaesState F)
    (solutions : List (Vec F × F)) : CmaesState F :=
  let sorted := sortLe (fun a b => decide (a.2 ≤ b.2)) solutions
  let mu := st.popSize / 2
  let elite := (sorted.take mu).map (fun p => p.1)
  let newMean := matColMean st.dim elite
  let varEst := matColVar st.dim elite
  let mean' := ((st.mean.zip newMean).map
    (fun p => npClip (8 / 10 * p.1 + 2 / 10 * p.2) (-(10 ^ 3)) (10 ^ 3)))
  let diagVar' := (st.diagVar.zip varEst).map
    (fun p => 9 / 10 * p.1 + 1 / 10 * npClip p.2 (1 / 10 ^ 8) (10 ^ 6))
  let trace := meanF diagVar'
  let sigma' := max (1 / 1000) (min 10 (9 / 10 * st.sigma + 1 / 10 * ops.sqrt trace))
  { st with mean := mean', diagVar := diagVar', sigma := sigma' }

/-- The `for _ in range(opt.population_size)` body of `_run_cmaes_style`
(sim_optimizers.py lines 161-173): ask, evaluate one candidate with the
separate evaluation generator, update the best, and break once the budget
is reached. -/
def cmaesInner (ops : Ops F) (objective : String) (budget : Nat)
    (noiseStd : F) :
    Nat → CmaesState F → Rng F → Option F → Nat → List (Vec F × F) →
    Except SimError (CmaesState F × Rng F × Option F × Nat × List (Vec F × F))
  | 0, opt, gE, best, evals, solsRev => .ok (opt, gE, best, evals, solsRev)
  | k + 1, opt, gE, best, evals, solsRev =>
    let (xs, opt') := cmaesAsk ops opt
    match evaluateBatch ops objective noiseStd gE [xs.1] with
    | .error e => .error e
    | .ok (ys, gE') =>
      let y := ys.headD 0
      let best' := match best with | none => y | some b => some (min b y)
      let evals' := evals + 1
      let solsRev' := (xs.2, y) :: solsRev
      if budget ≤ evals' then .ok (opt', gE', best', evals', solsRev')
      else cmaesInner ops objective budget noiseStd k opt' gE' best' evals' solsRev'

/-- The `while evals < eval_budget` loop of `_run_cmaes_style`
(sim_optimizers.py lines 159-178), with fuel; `none` models nontermination
(reached in the source when `population_size = 0`). -/
def cmaesLoop (ops : Ops F) (objective : String) (budget : Nat)
    (noiseStd : F) :
    Nat → CmaesState F → Rng F → Option F → Nat → List F →
    Option (Except SimError (OptimizerRun F))
  | fuel, opt, gE, best, evals, histRev =>
    if evals < budget then
      match fuel with
      | 0 => none
      | f + 1 =>
        match cmaesInner ops objective budget noiseStd opt.popSize opt gE best
            evals [] with
        | .error e => some (.error e)
        | .ok (opt', gE', best', evals', solsRev) =>
          let sols := solsRev.reverse
          let opt'' := if sols.length = opt'.popSize then cmaesTell ops opt' sols
            else opt'
          let histVal := match best' with | none => ops.inf | some b => b
          cmaesLoop ops objective budget noiseStd f opt'' gE' best' evals'
            (histVal :: histRev)
    else some (.ok ⟨histRev.reverse, best, evals⟩)

/-- `_run_cmaes_style` (sim_optimizers.py lines 135-180): the perturbation
is passed to the optimizer only when both enabled and `noise_std > 0`; the
evaluation noise uses an independent generator seeded `seed + 100_000`. -/
def runCmaesStyle (ops : Ops F) (objective : String) (dim budget pop : Nat)
    (noiseStd : F) (seed : Int) (enabled : Bool) (strength : F) :
    Option (Except SimError (OptimizerRun F)) :=
  let phaseOn := enabled && decide (0 < noiseStd)
  let opt := cmaesInit ops dim pop seed (if phaseOn then some strength else none)
  cmaesLoop ops objective budget noiseStd budget opt
    (mkRng ops (seed + 100000)) none 0 []

/-- Dispatch of one engine run inside `run_optimizer_scenario`
(sim_optimizers.py lines 192-213). -/
def optimizerEngineRun (ops : Ops F) (cfg : ScenarioConfig F) (seed : Int)
    (phase : Bool) : Option (Except SimError (OptimizerRun F)) :=
  if cfg.engine = "toy_es" then
    runToyEs ops cfg.objective cfg.dim cfg.stepsOrEvals cfg.populationSize
      cfg.noiseStd seed phase cfg.phasewallStrength
  else
    runCmaesStyle ops cfg.objective cfg.dim cfg.stepsOrEvals cfg.populationSize
      cfg.noiseStd seed phase cfg.phasewallStrength

/-- The `RunResult` built for one optimizer run (sim_optimizers.py lines
215-227); `ops.inf` renders the untouched initial best. -/
def optimizerRunResult (ops : Ops F) (cfg : ScenarioConfig F) (method : String)
    (seed : Int) (run : OptimizerRun F) : RunResult F :=
  { scenarioName := cfg.name
    engine := cfg.engine
    method := method
    seed := seed
    score := match run.bestFinal with | none => ops.inf | some b => b
    metrics := [("evals", (run.evalCount : F)),
                ("history_len", (run.bestHistory.length : F))] }

/-- One (seed, method) iteration of `run_optimizer_scenario`
(sim_optimizers.py lines 189-227), including the gate that disables the
perturbation whenever `noise_std` is not strictly positive (lines 190-191). -/
def optimizerMethodRun (ops : Ops F) (cfg : ScenarioConfig F) (seed : Int)
    (method : String) : Option (Except SimError (RunResult F)) :=
  let phase := method = "phasewall" && decide ((0 : F) < cfg.noiseStd)
  (optimizerEngineRun ops cfg seed phase).map
    (Except.map (optimizerRunResult ops cfg method seed))

/-- Sequence a list of fallible, possibly diverging computations in order:
the first divergence or raised error aborts the rest, as in Python. -/
def seqOE {α : Type} : List (Option (Except SimError α)) →
    Option (Except SimError (List α))
  | [] => some (.ok [])
  | x :: xs =>
    match x with
    | none => none
    | some (.error e) => some (.error e)
    | some (.ok a) =>
      match seqOE xs with
      | none => none
      | some (.error e) => some (.error e)
      | some (.ok rest) => some (.ok (a :: rest))

/-- `run_optimizer_scenario` (sim_optimizers.py lines 183-229): fail fast
on a non-optimizer engine naming the value, else run `"vanilla"` then
`"phasewall"` for every seed in order. -/
def runOptimizerScenario (ops : Ops F) (cfg : ScenarioConfig F) :
    Option (Except SimError (List (RunResult F))) :=
  if cfg.engine ≠ "toy_es" ∧ cfg.engine ≠ "cmaes_style" then
    some (.error (.unsupportedEngine cfg.engine))
  else
    seqOE (cfg.seeds.flatMap (fun sd =>
      [optimizerMethodRun ops cfg sd "vanilla",
       optimizerMethodRun ops cfg sd "phasewall"]))

/-! ## metrics.py

Python dictionaries are modelled as association lists that keep the first
insertion position of every key and overwrite its value in place, exactly
the insertion-order semantics of `dict` / `defaultdict`.  `scipy.stats.
wilcoxon` and the fixed-seed bootstrap are external randomised numerics
abstracted as parameters: no verified claim concerns their values. -/

/-- First-position lookup in an association dictionary (keys are unique by
construction of the update operations). -/
def dictGet [DecidableEq κ] : List (κ × α) → κ → Option α
  | [], _ => none
  | (k, v) :: rest, key => if k = key then some v else dictGet rest key

/-- `d[key] = v`: overwrite in place, or append a fresh key at the end. -/
def dictSet [DecidableEq κ] : List (κ × α) → κ → α → List (κ × α)
  | [], key, v => [(key, v)]
  | (k, w) :: rest, key, v =>
    if k = key then (k, v) :: rest else (k, w) :: dictSet rest key v

/-- `defaultdict(list)`'s `d[key].append(x)`. -/
def dictAppend [DecidableEq κ] : List (κ × List α) → κ → α → List (κ × List α)
  | [], key, x => [(key, [x])]
  | (k, xs) :: rest, key, x =>
    if k = key then (k, xs ++ [x]) :: rest else (k, xs) :: dictAppend rest key x

/-- `defaultdict(dict)`'s `d[key][m] = v`. -/
def dictSetInner [DecidableEq κ] [DecidableEq μ] :
    List (κ × List (μ × α)) → κ → μ → α → List (κ × List (μ × α))
  | [], key, m, v => [(key, [(m, v)])]
  | (k, inner) :: rest, key, m, v =>
    if k = key then (k, dictSet inner m v) :: rest
    else (k, inner) :: dictSetInner rest key m v

/-- A `dict` built from a list of pairs (later occurrences of a key
overwrite earlier ones, keeping the first position). -/
def dictOfPairs [DecidableEq κ] (l : List (κ × α)) : List (κ × α) :=
  l.foldl (fun acc p => dictSet acc p.1 p.2) []

/-- Boolean total preorder on strings modelling Python string `<=`
comparisons inside `sorted`. -/
def strLeB (a b : String) : Bool := !(decide (b < a))

/-- Python tuple comparison on `(scenario, engine)` keys. -/
def pairLeB (a b : String × String) : Bool :=
  if a.1 = b.1 then strLeB a.2 b.2 else strLeB a.1 b.1

/-- `_safe_ratio` (metrics.py lines 20-23): NaN (= `none`) when the
baseline is non-positive or the value negative, else the ratio against a
denominator floored at `1e-12`. -/
def safeRatio (value baseline : F) : Option F :=
  if baseline ≤ 0 ∨ value < 0 then none
  else some (value / max (1 / 10 ^ 12) baseline)

/-- The pairing of a method's rows with the per-seed baseline dictionary
(metrics.py lines 40 and 52-57): rows without a matching-seed baseline are
dropped; each kept row contributes `(baseline score, row score)`. -/
def aggPaired (baselineRows rows : List (RunResult F)) : List (F × F) :=
  let baselineBySeed := dictOfPairs (baselineRows.map (fun b => (b.seed, b.score)))
  rows.filterMap (fun r =>
    (dictGet baselineBySeed r.seed).map (fun bs => (bs, r.score)))

/-- The body of the inner `for method, rows in sorted(method_map.items())`
loop of `aggregate_results` (metrics.py lines 42-83), producing one
`AggregateResult`. -/
def mkAggRow (sq : F → F) (bootstrapCi : List F → F × F)
    (wilcoxonGreater : List F → List F → Option F)
    (scenarioName engine : String) (baselineRows : List (RunResult F))
    (method : String) (rows : List (RunResult F)) : AggregateResult F :=
  let scores := rows.map (fun r => r.score)
  let baselineScores := baselineRows.map (fun r => r.score)
  let ci := bootstrapCi scores
  let paired := aggPaired baselineRows rows
  let ratioVal : Option F :=
    if 0 < baselineScores.length then
      safeRatio (medianF scores) (medianF baselineScores)
    else none
  let pVal : Option F :=
    if 0 < baselineScores.length ∧ 2 ≤ paired.length ∧ method ≠ "vanilla" then
      wilcoxonGreater (paired.map (fun p => p.1)) (paired.map (fun p => p.2))
    else none
  let winVal : Option F :=
    if 0 < baselineScores.length then
      if 2 ≤ paired.length ∧ method ≠ "vanilla" then
        some ((paired.countP (fun p => decide (p.2 < p.1)) : F) / (paired.length : F))
      else if method = "vanilla" then some (1 / 2)
      else none
    else none
  { scenarioName := scenarioName
    engine := engine
    method := method
    n := scores.length
    medianScore := medianF scores
    meanScore := meanF scores
    stdScore := stdF sq scores
    ciLow := ci.1
    ciHigh := ci.2
    winRate := winVal
    ratioVsVanilla := ratioVal
    wilcoxonP := pVal }

/-- The grouping by `(scenario, engine, method)` of `aggregate_results`
(metrics.py lines 27-29). -/
def groupedOf (results : List (RunResult F)) :
    List ((String × String × String) × List (RunResult F)) :=
  results.foldl
    (fun acc r => dictAppend acc (r.scenarioName, r.engine, r.method) r) []

/-- The regrouping by `(scenario, engine)` with an inner method dictionary
(metrics.py lines 31-33). -/
def byPairOf (results : List (RunResult F)) :
    List ((String × String) × List (String × List (RunResult F))) :=
  (groupedOf results).foldl
    (fun acc kv => dictSetInner acc (kv.1.1, kv.1.2.1) kv.1.2.2 kv.2) []

/-- `aggregate_results` (metrics.py lines 26-85). -/
def aggregateResults (sq : F → F) (bootstrapCi : List F → F × F)
    (wilcoxonGreater : List F → List F → Option F)
    (results : List (RunResult F)) : List (AggregateResult F) :=
  (sortLe (fun a b => pairLeB a.1 b.1) (byPairOf results)).flatMap
    (fun pair =>
      let baselineRows := (dictGet pair.2 "vanilla").getD []
      (sortLe (fun a b => strLeB a.1 b.1) pair.2).map
        (fun mr => mkAggRow sq bootstrapCi wilcoxonGreater pair.1.1 pair.1.2
          baselineRows mr.1 mr.2))

/-! ## run_bench.py and config.py scenario presets -/

/-- `core_benchmark_scenarios` (config.py lines 65-112). -/
def coreBenchmarkScenarios (seedCount : Nat) : List (ScenarioConfig F) :=
  let seeds := makeSeedList seedCount 100
  let walkerCfg : ScenarioConfig F :=
    { name := "walker_2d_noisy", dim := 2, noiseStd := 1 / 4,
      stepsOrEvals := 120, seeds := seeds, phasewallStrength := 4 / 10,
      engine := "walker", objective := "sphere", populationSize := 24,
      nAgents := 140, sigma := 1 }
  walkerCfg :: ([2, 10].flatMap (fun dim =>
    ["sphere", "rosenbrock", "rastrigin"].flatMap (fun objective =>
      [{ name := "toy_es_" ++ objective ++ "_" ++ toString dim ++ "d",
         dim := dim, noiseStd := 1 / 10,
         stepsOrEvals := 1200, seeds := seeds, phasewallStrength := 4 / 10,
         engine := "toy_es", objective := objective, populationSize := 24,
         nAgents := 120, sigma := 1 },
       { name := "cmaes_style_" ++ objective ++ "_" ++ toString dim ++ "d",
         dim := dim, noiseStd := 1 / 10,
         stepsOrEvals := 1200, seeds := seeds, phasewallStrength := 4 / 10,
         engine := "cmaes_style", objective := objective, populationSize := 24,
         nAgents := 120, sigma := 1 }])))

/-- The engine dispatch of `run_benchmark` (run_bench.py lines 19-23),
also used to model one Runner invocation: `"walker"` goes to
`run_walker_scenario`, everything else to `run_optimizer_scenario`. -/
def runScenarioDispatch (ops : Ops F) (cfg : ScenarioConfig F) :
    Option (Except SimError (List (RunResult F))) :=
  if cfg.engine = "walker" then
    match runWalkerScenario ops cfg with
    | .error e => some (.error e)
    | .ok rs => some (.ok rs)
  else runOptimizerScenario ops cfg

/-- One Runner invocation threaded through an ambient world state `w`.
The world stands for process-global mutable state (in particular numpy's
global random generator): the embedded runners construct every generator
from the per-run seed via `default_rng(seed)` and neither read nor write
any global state, so the invocation returns the world unchanged and its
result cannot depend on it. -/
def runScenarioInWorld {W : Type} (ops : Ops F) (w : W)
    (cfg : ScenarioConfig F) :
    Option (Except SimError (List (RunResult F))) × W :=
  (runScenarioDispatch ops cfg, w)

/-- The ordered score sequence of a Runner invocation's results. -/
def scoreSeqOf (r : Option (Except SimError (List (RunResult F)))) :
    Option (Except SimError (List F)) :=
  r.map (Except.map (fun rs => rs.map (fun x => x.score)))

/-- `run_benchmark` (run_bench.py lines 13-35) up to the artifact-writing
boundary (`ensure_artifact_dir` / `write_bundle` are excluded reporting
collaborators): unsupported presets fail fast naming the offending value
before any scenario is built or run. -/
def runBenchmark (ops : Ops F) (bootstrapCi : List F → F × F)
    (wilcoxonGreater : List F → List F → Option F) (preset : String)
    (seedCount : Nat) :
    Option (Except SimError (List (RunResult F) × List (AggregateResult F))) :=
  if preset ≠ "core" then some (.error (.unsupportedPreset preset))
  else
    match seqOE ((coreBenchmarkScenarios (F := F) seedCount).map
        (fun cfg => runScenarioDispatch ops cfg)) with
    | none => none
    | some (.error e) => some (.error e)
    | some (.ok resultLists) =>
      let allResults := resultLists.flatten
      some (.ok (allResults,
        aggregateResults (fun x => ops.sqrt x) bootstrapCi wilcoxonGreater allResults))

/-! ## Claim-support definitions and concrete instantiations -/

/-- The ordered score list of one method's rows inside an optimizer
scenario result (used to state the no-noise no-regression property). -/
def optMethodScores (ops : Ops F) (cfg : ScenarioConfig F) (method : String) :
    Option (Except SimError (List F)) :=
  (runOptimizerScenario ops cfg).map (Except.map (fun rs =>
    (rs.filter (fun r => r.method == method)).map (fun r => r.score)))

/-- The median final score of one method inside an optimizer scenario
result. -/
def optMethodMedian (ops : Ops F) (cfg : ScenarioConfig F) (method : String) :
    Option (Except SimError F) :=
  (optMethodScores ops cfg method).map (Except.map medianF)

/-- A result list with a `"vanilla"` group followed by a `"phasewall"`
group over the same seed list for one `(scenario, engine)` pair: the seed
of entry `q` is `q.1`, its vanilla score `q.2.1`, its phasewall score
`q.2.2`. -/
def mkPairedInput (s e : String) (pairs : List (Int × F × F)) :
    List (RunResult F) :=
  pairs.map (fun q => ⟨s, e, "vanilla", q.1, q.2.1, []⟩) ++
    pairs.map (fun q => ⟨s, e, "phasewall", q.1, q.2.2, []⟩)

/-- Concrete rational operations for executable witnesses: the square root
is exact on perfect squares (as IEEE `sqrt` is), the remaining
transcendental primitives and the random streams are inert stand-ins whose
values the witnessed properties do not depend on. -/
def qOps : Ops ℚ :=
  { sqrt := ratSqrt
    exp := fun _ => 0
    cos := fun _ => 0
    pi := 0
    atan2 := fun _ _ => 0
    unwrap2 := fun _ b => b
    inf := 0
    stream := fun _ _ => 0 }

/-- Inert bootstrap-CI stand-in for witnesses. -/
def bci0 : List ℚ → ℚ × ℚ := fun _ => (0, 0)

/-- Inert Wilcoxon stand-in for witnesses (always the NaN sentinel). -/
def wfn0 : List ℚ → List ℚ → Option ℚ := fun _ _ => none

/-- A tiny valid walker configuration (two dimensions, one agent, zero
steps, one seed). -/
def cfgWalkerTiny : ScenarioConfig ℚ :=
  { name := "w", dim := 2, noiseStd := 0, stepsOrEvals := 0, seeds := [0],
    phasewallStrength := 4 / 10, engine := "walker", objective := "sphere",
    populationSize := 24, nAgents := 1, sigma := 1 }

/-- The walker configuration of `cfgWalkerTiny` with an objective name
that is not in `OBJECTIVE_MAP`. -/
def cfgWalkerBogusObjective : ScenarioConfig ℚ :=
  { cfgWalkerTiny with objective := "definitely_not_an_objective" }

/-- A tiny noise-free `toy_es` configuration. -/
def cfgToyEsNoiseless : ScenarioConfig ℚ :=
  { name := "t", dim := 1, noiseStd := 0, stepsOrEvals := 2, seeds := [0],
    phasewallStrength := 4 / 10, engine := "toy_es", objective := "sphere",
    populationSize := 2, nAgents := 120, sigma := 1 }

/-- A `toy_es` configuration with a bogus objective name, one seed and a
positive budget. -/
def cfgToyEsBogusObjective : ScenarioConfig ℚ :=
  { cfgToyEsNoiseless with objective := "definitely_not_an_objective" }

/-- A `cmaes_style` configuration with a bogus objective name, one seed,
a positive budget and a positive population. -/
def cfgCmaesBogusObjective : ScenarioConfig ℚ :=
  { cfgToyEsNoiseless with
    engine := "cmaes_style"
    objective := "definitely_not_an_objective" }

/-- A sample single run result used to witness the aggregate coverage
property. -/
def sampleRunResult : RunResult ℚ :=
  { scenarioName := "s", engine := "e", method := "vanilla", seed := 0,
    score := 1, metrics := [] }

/-- Two paired seeds with ordinary score magnitudes (vanilla median `3`,
phasewall median `2`). -/
def samplePairs : List (Int × ℚ × ℚ) := [(0, 2, 1), (1, 4, 3)]

/-- Two paired seeds whose vanilla scores are positive yet below the
`1e-12` denominator floor of `_safe_ratio`. -/
def tinyBaselinePairs : List (Int × ℚ × ℚ) :=
  [(0, 1 / (2 * 10 ^ 12), 1), (1, 1 / (2 * 10 ^ 12), 1)]

/-! ## Helper lemmas -/

theorem npClip_eq_self {x lo hi : F} (h1 : lo ≤ x) (h2 : x ≤ hi) :
    npClip x lo hi = x := by
  unfold npClip
  rw [min_eq_left h2, max_eq_right h1]

theorem npClip01_nonneg (s : F) : 0 ≤ npClip s 0 1 := le_max_left 0 _

theorem npClip01_le_one (s : F) : npClip s 0 1 ≤ 1 :=
  max_le zero_le_one (min_le_right s 1)

theorem sumSq_nonneg (v : Vec F) : 0 ≤ sumSq v := by
  induction v with
  | nil => simp [sumSq]
  | cons x xs ih =>
    have hx : 0 ≤ x * x := mul_self_nonneg x
    simp only [sumSq, List.map_cons, List.sum_cons]
    exact add_nonneg hx ih

theorem sumSq_map_mul (c : F) (v : Vec F) :
    sumSq (v.map (fun x => c * x)) = c ^ 2 * sumSq v := by
  induction v with
  | nil => simp [sumSq]
  | cons x xs ih =>
    simp only [sumSq, List.map_cons, List.sum_cons] at *
    rw [ih]
    ring

theorem pwRow_outside_spec (sq : F → F) {r0 s' : F} (row : Vec F)
    (hs0 : 0 ≤ s') (hs1 : s' ≤ 1) (h0 : 0 < r0)
    (hout : r0 < sq (sumSq row)) :
    ∃ c, 0 < c ∧ c ≤ 1 ∧ r0 / sq (sumSq row) ≤ c ∧
      pwRow sq r0 s' row = row.map (fun x => c * x) := by
  set n := sq (sumSq row) with hn
  have hnpos : 0 < n := h0.trans hout
  have hd0 : 0 < r0 / n := div_pos h0 hnpos
  have hd1 : r0 / n < 1 := (div_lt_one hnpos).mpr hout
  have h1m : 0 ≤ 1 - r0 / n := by linarith
  have hmul : s' * (1 - r0 / n) ≤ 1 - r0 / n := mul_le_of_le_one_left h1m hs1
  have hraw_ge : r0 / n ≤ 1 - s' * (1 - r0 / n) := by linarith
  have hraw_le : 1 - s' * (1 - r0 / n) ≤ 1 := by
    have := mul_nonneg hs0 h1m
    linarith
  have hclip : npClip (1 - s' * (1 - r0 / n)) 0 1 = 1 - s' * (1 - r0 / n) :=
    npClip_eq_self (le_trans hd0.le hraw_ge) hraw_le
  refine ⟨1 - s' * (1 - r0 / n), lt_of_lt_of_le hd0 hraw_ge, hraw_le, hraw_ge, ?_⟩
  simp only [pwRow, ← hn, if_pos hout, hclip]

/-! ## Claim theorems -/

/-- C9 (corrected): `compute_curvature_sign` implements the sign of
`sigma^2 - r^2` only outside the `tol` dead band: it returns `+1` when
`sigma^2 - r^2 > tol`, `-1` when `sigma^2 - r^2 < -tol`, and `0` whenever
`|sigma^2 - r^2| ≤ tol` (in particular at `r = sigma`), for any
non-negative tolerance (the source default is `1e-10`). -/
theorem c9_curvature_sign_amended (r sigma tol : F) (htol : 0 ≤ tol) :
    (tol < sigma ^ 2 - r ^ 2 → computeCurvatureSign r sigma tol = 1) ∧
    (sigma ^ 2 - r ^ 2 < -tol → computeCurvatureSign r sigma tol = -1) ∧
    (-tol ≤ sigma ^ 2 - r ^ 2 → sigma ^ 2 - r ^ 2 ≤ tol →
      computeCurvatureSign r sigma tol = 0) := by
  refine ⟨fun h => ?_, fun h => ?_, fun h1 h2 => ?_⟩
  · simp only [computeCurvatureSign, if_pos h]
  · have hnot : ¬ tol < sigma ^ 2 - r ^ 2 := by linarith
    simp only [computeCurvatureSign, if_neg hnot, if_pos h]
  · have hnot1 : ¬ tol < sigma ^ 2 - r ^ 2 := not_lt.mpr h2
    have hnot2 : ¬ sigma ^ 2 - r ^ 2 < -tol := not_lt.mpr h1
    simp only [computeCurvatureSign, if_neg hnot1, if_neg hnot2]

/-- C9 counterexample: at the source defaults (`sigma = 1`,
`tol = 1e-10`), the radius `1 - 1e-12` is strictly less than `sigma` yet
the function returns `0`, not the `+1` the claim requires. -/
theorem c9_counterexample :
    computeCurvatureSign ((1 : ℚ) - 1 / 10 ^ 12) 1 (1 / 10 ^ 10) = 0 ∧
    ((1 : ℚ) - 1 / 10 ^ 12) < 1 := by
  constructor
  · with_unfolding_all rfl
  · norm_num

/-- C9 witness: the three amended branches at radii `0`, `2` and exactly
`sigma`, with the source default tolerance. -/
theorem c9_witness :
    computeCurvatureSign (0 : ℚ) 1 (1 / 10 ^ 10) = 1 ∧
    computeCurvatureSign (2 : ℚ) 1 (1 / 10 ^ 10) = -1 ∧
    computeCurvatureSign (1 : ℚ) 1 (1 / 10 ^ 10) = 0 :=
  ⟨(c9_curvature_sign_amended 0 1 (1 / 10 ^ 10) (by norm_num)).1 (by norm_num),
   (c9_curvature_sign_amended 2 1 (1 / 10 ^ 10) (by norm_num)).2.1 (by norm_num),
   (c9_curvature_sign_amended 1 1 (1 / 10 ^ 10) (by norm_num)).2.2 (by norm_num)
     (by norm_num)⟩

/-- C8 (confirmed): on a single vector whose norm exceeds the reference
radius `r0 > 0`, `apply_phase_wall_z` returns a non-negative scalar
multiple of its input for every strength value — the direction is
unchanged and the magnitude scaled by a factor in `(0, 1]`. -/
theorem c8_direction_preserved (sq : F → F) (r0 strength : F) (z : Vec F)
    (h0 : 0 < r0) (hout : r0 < sq (sumSq z)) :
    ∃ c, 0 ≤ c ∧ c ≤ 1 ∧
      applyPhaseWallZVec sq z r0 strength = z.map (fun x => c * x) := by
  obtain ⟨c, hc0, hc1, _, heq⟩ := pwRow_outside_spec sq z
    (npClip01_nonneg strength) (npClip01_le_one strength) h0 hout
  exact ⟨c, hc0.le, hc1, heq⟩

/-- C8 witness: the vector `[3, 4]` (norm `5`) outside radius `1`, with an
out-of-range strength `2`. -/
theorem c8_witness :
    (0 : ℚ) < 1 ∧ (1 : ℚ) < ratSqrt (sumSq [3, 4]) ∧
    ∃ c, 0 ≤ c ∧ c ≤ 1 ∧
      applyPhaseWallZVec ratSqrt [3, 4] 1 2 = [(3 : ℚ), 4].map (fun x => c * x) :=
  ⟨by norm_num, by with_unfolding_all decide,
   c8_direction_preserved ratSqrt 1 2 [3, 4] one_pos (by with_unfolding_all decide)⟩

/-- C10 (confirmed): for any reference radius `r0 > 0` and any strength,
`apply_phase_wall_z` leaves every row of norm at most `r0` exactly
unchanged, and scales every row of norm above `r0` by a factor in
`(0, 1]`, so the output norm stays in `[r0, original norm]` — the
transform never pulls an outside point inside `r0` and never increases a
norm.  `sq` is any square-root function satisfying `√(c² x) = c √x` on
non-negative arguments. -/
theorem c10_phase_wall_invariant (sq : F → F)
    (hmul : ∀ c x : F, 0 ≤ c → 0 ≤ x → sq (c ^ 2 * x) = c * sq x)
    (r0 strength : F) (h0 : 0 < r0) (rows : Mat F) :
    List.Forall₂ (fun row out =>
      (sq (sumSq row) ≤ r0 → out = row) ∧
      (r0 < sq (sumSq row) → ∃ c, 0 < c ∧ c ≤ 1 ∧
        out = row.map (fun x => c * x) ∧
        r0 ≤ sq (sumSq out) ∧ sq (sumSq out) ≤ sq (sumSq row)))
      rows (applyPhaseWallZ sq rows r0 strength) := by
  unfold applyPhaseWallZ
  rw [List.forall₂_map_right_iff]
  rw [List.forall₂_same]
  intro row _
  rcases le_or_lt (sq (sumSq row)) r0 with hin | hout
  · refine ⟨fun _ => ?_, fun h' => absurd h' (not_lt.mpr hin)⟩
    simp only [pwRow, if_neg (not_lt.mpr hin)]
  · refine ⟨fun h' => absurd hout (not_lt.mpr h'), fun _ => ?_⟩
    obtain ⟨c, hc0, hc1, hge, heq⟩ := pwRow_outside_spec sq row
      (npClip01_nonneg strength) (npClip01_le_one strength) h0 hout
    have hnpos : 0 < sq (sumSq row) := h0.trans hout
    have hout_norm : sq (sumSq (pwRow sq r0 (npClip strength 0 1) row)) =
        c * sq (sumSq row) := by
      rw [heq, sumSq_map_mul, hmul c (sumSq row) hc0.le (sumSq_nonneg row)]
    refine ⟨c, hc0, hc1, heq, ?_, ?_⟩
    · rw [hout_norm]
      calc r0 = r0 / sq (sumSq row) * sq (sumSq row) := by
            field_simp
        _ ≤ c * sq (sumSq row) :=
            mul_le_mul_of_nonneg_right hge hnpos.le
    · rw [hout_norm]
      calc c * sq (sumSq row) ≤ 1 * sq (sumSq row) :=
            mul_le_mul_of_nonneg_right hc1 hnpos.le
        _ = sq (sumSq row) := one_mul _

/-- C10 witness: the single row `[3, 4]` over `ℝ` with the genuine square
root, radius `1` and strength `1/2`. -/
theorem c10_witness :
    (0 : ℝ) < 1 ∧
    List.Forall₂ (fun row out =>
      (Real.sqrt (sumSq row) ≤ 1 → out = row) ∧
      (1 < Real.sqrt (sumSq row) → ∃ c, 0 < c ∧ c ≤ 1 ∧
        out = row.map (fun x => c * x) ∧
        1 ≤ Real.sqrt (sumSq out) ∧ Real.sqrt (sumSq out) ≤ Real.sqrt (sumSq row)))
      [[(3 : ℝ), 4]] (applyPhaseWallZ Real.sqrt [[(3 : ℝ), 4]] 1 (1 / 2)) :=
  ⟨one_pos,
   c10_phase_wall_invariant Real.sqrt
     (fun c x hc hx => by rw [Real.sqrt_mul (sq_nonneg c) x, Real.sqrt_sq hc])
     1 (1 / 2) one_pos [[(3 : ℝ), 4]]⟩

/-- C4 (corrected): the walker's post-step clamp is `apply_phase_wall_z`
with strength hard-coded to `1.0` — a hard projection of any radial
excursion beyond `sigma` back onto radius `sigma` — irrespective of the
configured `phasewall_strength`, which parameterises only the noise
reshaping; consequently two walker steps that differ only in the strength
knob apply the identical position clamp (their outputs agree whenever the
reshaped noises agree). -/
theorem c4_walker_clamp_amended :
    (∀ (sq : F → F) (r0 : F) (m : Mat F), 0 < r0 →
        applyPhaseWallZ sq m r0 1 = hardProjectToRadius sq m r0) ∧
    (∀ (ops : Ops F) (enabled : Bool) (sigma s₁ s₂ : F) (ps noise : Mat F),
        phaseAwareNoise ops.sqrt ps noise sigma s₁ (8 / 10) (1 / 4) =
          phaseAwareNoise ops.sqrt ps noise sigma s₂ (8 / 10) (1 / 4) →
        walkerStepPos ops enabled sigma s₁ ps noise =
          walkerStepPos ops enabled sigma s₂ ps noise) := by
  constructor
  · intro sq r0 m h0
    unfold applyPhaseWallZ hardProjectToRadius
    rw [npClip_eq_self zero_le_one le_rfl]
    apply List.map_congr_left
    intro row _
    by_cases h : r0 < sq (sumSq row)
    · have hnpos : 0 < sq (sumSq row) := h0.trans h
      have hsimp : (1 : F) - 1 * (1 - r0 / sq (sumSq row)) = r0 / sq (sumSq row) := by
        ring
      simp only [pwRow, hardProjectRow, if_pos h, hsimp,
        npClip_eq_self (div_pos h0 hnpos).le ((div_le_one hnpos).mpr h.le)]
    · simp only [pwRow, hardProjectRow, if_neg h]
  · intro ops enabled sigma s₁ s₂ ps noise h
    unfold walkerStepPos
    rw [h]

/-- C4 counterexample: one walker step at `sigma = 1` with the
perturbation enabled, the agent at `(5, 0)` and a zero noise draw.  With
`phasewall_strength = 0` the claim demands the clamp have no effect
(position stays at radius 5), but the step hard-clamps the position to
`(1, 0)`; the configured strength `0.4` produces the same clamped
position, so the two strengths apply identical position clamps. -/
theorem c4_counterexample :
    walkerStepPos qOps true 1 0 [[(5 : ℚ), 0]] [[0, 0]] = Except.ok [[1, 0]] ∧
    walkerStepPos qOps true 1 (4 / 10) [[(5 : ℚ), 0]] [[0, 0]] =
      Except.ok [[1, 0]] ∧
    [[(1 : ℚ), 0]] ≠ [[5, 0]] :=
  ⟨by with_unfolding_all rfl, by with_unfolding_all rfl,
   by with_unfolding_all decide⟩

set_option maxHeartbeats 1000000 in
/-- C4 witness: the hard-clamp identity at radius `1` on the row `[3, 4]`,
and strength-independence of the walker step on a concrete state. -/
theorem c4_witness :
    applyPhaseWallZ ratSqrt [[(3 : ℚ), 4]] 1 1 =
      hardProjectToRadius ratSqrt [[(3 : ℚ), 4]] 1 ∧
    walkerStepPos qOps true 1 (2 / 10) [[(5 : ℚ), 0]] [[0, 0]] =
      walkerStepPos qOps true 1 (3 / 10) [[(5 : ℚ), 0]] [[0, 0]] :=
  ⟨(c4_walker_clamp_amended (F := ℚ)).1 ratSqrt 1 [[3, 4]] one_pos,
   (c4_walker_clamp_amended (F := ℚ)).2 qOps true 1 (2 / 10) (3 / 10)
     [[5, 0]] [[0, 0]] (by with_unfolding_all decide)⟩

/-- C1 (confirmed): with a valid engine name, invoking the Runner twice in
sequence — the second invocation starting from whatever ambient world
state the first one left behind — yields identical result lists and
bit-identical ordered score sequences, for the walker dispatch and both
optimizer engines: every source of randomness is a generator constructed
from the per-run integer seed, and no global state is read or written. -/
theorem c1_runner_determinism {W : Type} (ops : Ops F) (w : W)
    (cfg : ScenarioConfig F)
    (_hvalid : cfg.engine = "walker" ∨ cfg.engine = "toy_es" ∨
      cfg.engine = "cmaes_style") :
    (runScenarioInWorld ops ((runScenarioInWorld ops w cfg).2) cfg).1 =
      (runScenarioInWorld ops w cfg).1 ∧
    scoreSeqOf (runScenarioInWorld ops ((runScenarioInWorld ops w cfg).2) cfg).1 =
      scoreSeqOf (runScenarioInWorld ops w cfg).1 :=
  ⟨rfl, rfl⟩

/-- C1 witness: two sequential invocations on a concrete walker scenario. -/
theorem c1_witness :
    (runScenarioInWorld qOps
        ((runScenarioInWorld qOps (0 : Nat) cfgWalkerTiny).2) cfgWalkerTiny).1 =
      (runScenarioInWorld qOps (0 : Nat) cfgWalkerTiny).1 ∧
    scoreSeqOf (runScenarioInWorld qOps
        ((runScenarioInWorld qOps (0 : Nat) cfgWalkerTiny).2) cfgWalkerTiny).1 =
      scoreSeqOf (runScenarioInWorld qOps (0 : Nat) cfgWalkerTiny).1 :=
  c1_runner_determinism qOps 0 cfgWalkerTiny (Or.inl rfl)

theorem objectiveFn_eq_none (ops : Ops F) (name : String)
    (h : name ∉ ["sphere", "rosenbrock", "rastrigin"]) :
    objectiveFn ops name = none := by
  simp only [List.mem_cons, List.mem_singleton, not_or, List.not_mem_nil,
    or_false] at h
  obtain ⟨h1, h2, h3⟩ := h
  simp [objectiveFn, h1, h2, h3]

theorem walkerRuns_objective_irrelevant (ops : Ops F) (cfg : ScenarioConfig F)
    (o₁ o₂ : String) : ∀ l : List Int,
    walkerRuns ops { cfg with objective := o₁ } l =
      walkerRuns ops { cfg with objective := o₂ } l := by
  intro l
  induction l with
  | nil => rfl
  | cons sd rest ih =>
    simp only [walkerRuns]
    rw [ih]
    rfl

theorem runToyEs_keyError (ops : Ops F) (objective : String)
    (dim budget pop : Nat) (noiseStd : F) (seed : Int) (enabled : Bool)
    (strength : F) (hobj : objectiveFn ops objective = none)
    (hb : 0 < budget) :
    runToyEs ops objective dim budget pop noiseStd seed enabled strength =
      some (.error (.keyError objective)) := by
  obtain ⟨b, rfl⟩ := Nat.exists_eq_succ_of_ne_zero hb.ne'
  rw [runToyEs, toyEsLoop]
  simp [hb, toyEsGen, evaluateBatch, hobj]

theorem runCmaesStyle_keyError (ops : Ops F) (objective : String)
    (dim budget pop : Nat) (noiseStd : F) (seed : Int) (enabled : Bool)
    (strength : F) (hobj : objectiveFn ops objective = none)
    (hb : 0 < budget) (hp : 0 < pop) :
    runCmaesStyle ops objective dim budget pop noiseStd seed enabled strength =
      some (.error (.keyError objective)) := by
  obtain ⟨b, rfl⟩ := Nat.exists_eq_succ_of_ne_zero hb.ne'
  obtain ⟨p, rfl⟩ := Nat.exists_eq_succ_of_ne_zero hp.ne'
  rw [runCmaesStyle, cmaesLoop]
  simp [hb, cmaesInit, cmaesInner, evaluateBatch, hobj]

/-- C5 (corrected): unsupported preset names and invalid engine names fail
fast with a descriptive error carrying the offending value and no partial
results.  An invalid objective name, however, raises its `KeyError` only
inside the optimizer engines, at the first objective evaluation — in
`toy_es` after the first full population has been sampled, in
`cmaes_style` after the first single candidate has been asked — again
with no partial results; the walker engine never reads the objective
field at all, so an invalid objective produces no error there. -/
theorem c5_fail_fast_amended :
    (∀ (ops : Ops F) (bci : List F → F × F)
        (wfn : List F → List F → Option F) (preset : String) (n : Nat),
        preset ≠ "core" →
        runBenchmark ops bci wfn preset n =
          some (.error (.unsupportedPreset preset))) ∧
    (∀ (ops : Ops F) (cfg : ScenarioConfig F), cfg.engine ≠ "walker" →
        runWalkerScenario ops cfg = .error (.expectedWalkerEngine cfg.engine)) ∧
    (∀ (ops : Ops F) (cfg : ScenarioConfig F),
        cfg.engine ≠ "toy_es" → cfg.engine ≠ "cmaes_style" →
        runOptimizerScenario ops cfg =
          some (.error (.unsupportedEngine cfg.engine))) ∧
    (∀ (ops : Ops F) (cfg : ScenarioConfig F), cfg.engine = "toy_es" →
        cfg.objective ∉ ["sphere", "rosenbrock", "rastrigin"] →
        0 < cfg.stepsOrEvals → cfg.seeds ≠ [] →
        runOptimizerScenario ops cfg = some (.error (.keyError cfg.objective))) ∧
    (∀ (ops : Ops F) (cfg : ScenarioConfig F), cfg.engine = "cmaes_style" →
        cfg.objective ∉ ["sphere", "rosenbrock", "rastrigin"] →
        0 < cfg.stepsOrEvals → 0 < cfg.populationSize → cfg.seeds ≠ [] →
        runOptimizerScenario ops cfg = some (.error (.keyError cfg.objective))) ∧
    (∀ (ops : Ops F) (cfg : ScenarioConfig F) (o₁ o₂ : String),
        runWalkerScenario ops { cfg with objective := o₁ } =
          runWalkerScenario ops { cfg with objective := o₂ }) := by
  refine ⟨?_, ?_, ?_, ?_, ?_, ?_⟩
  · intro ops bci wfn preset n h
    rw [runBenchmark, if_pos h]
  · intro ops cfg h
    rw [runWalkerScenario, if_pos h]
  · intro ops cfg h1 h2
    rw [runOptimizerScenario, if_pos ⟨h1, h2⟩]
  · intro ops cfg he hobj hbudget hseeds
    obtain ⟨sd, rest, hs⟩ := List.exists_cons_of_ne_nil hseeds
    have hobj' : objectiveFn ops cfg.objective = none :=
      objectiveFn_eq_none ops cfg.objective hobj
    have hneg : ¬ (cfg.engine ≠ "toy_es" ∧ cfg.engine ≠ "cmaes_style") :=
      fun hc => hc.1 he
    rw [runOptimizerScenario, if_neg hneg, hs]
    simp only [List.flatMap_cons, List.cons_append]
    rw [optimizerMethodRun, optimizerEngineRun, if_pos he,
      runToyEs_keyError ops cfg.objective cfg.dim cfg.stepsOrEvals
        cfg.populationSize cfg.noiseStd sd _ cfg.phasewallStrength hobj' hbudget]
    rfl
  · intro ops cfg he hobj hbudget hpop hseeds
    obtain ⟨sd, rest, hs⟩ := List.exists_cons_of_ne_nil hseeds
    have hobj' : objectiveFn ops cfg.objective = none :=
      objectiveFn_eq_none ops cfg.objective hobj
    have hneg : ¬ (cfg.engine ≠ "toy_es" ∧ cfg.engine ≠ "cmaes_style") :=
      fun hc => hc.2 he
    have hnt : ¬ cfg.engine = "toy_es" := fun h => by
      rw [he] at h
      exact absurd h (by decide)
    rw [runOptimizerScenario, if_neg hneg, hs]
    simp only [List.flatMap_cons, List.cons_append]
    rw [optimizerMethodRun, optimizerEngineRun, if_neg hnt,
      runCmaesStyle_keyError ops cfg.objective cfg.dim cfg.stepsOrEvals
        cfg.populationSize cfg.noiseStd sd _ cfg.phasewallStrength hobj'
        hbudget hpop]
    rfl
  · intro ops cfg o₁ o₂
    rw [runWalkerScenario, runWalkerScenario]
    by_cases hcase : cfg.engine ≠ "walker"
    · rw [if_pos hcase, if_pos hcase]
    · rw [if_neg hcase, if_neg hcase]
      exact walkerRuns_objective_irrelevant ops cfg o₁ o₂ cfg.seeds

/-- C5 counterexample: a walker scenario whose objective is not a key of
`OBJECTIVE_MAP` runs to completion without any error, refuting the claim
that an invalid objective name causes an immediate error. -/
theorem c5_counterexample :
    cfgWalkerBogusObjective.engine = "walker" ∧
    objectiveFn qOps cfgWalkerBogusObjective.objective = none ∧
    (runWalkerScenario qOps cfgWalkerBogusObjective).isOk = true :=
  ⟨rfl, by with_unfolding_all rfl, by with_unfolding_all rfl⟩

/-- C5 witness: each amended branch at a concrete input — bogus preset,
walker runner on an optimizer config, optimizer runner on a walker
config, bogus objective on a `toy_es` config and on a `cmaes_style`
config, and objective-independence of the walker runner. -/
theorem c5_witness :
    runBenchmark qOps bci0 wfn0 "bogus_preset" 2 =
      some (.error (.unsupportedPreset "bogus_preset")) ∧
    runWalkerScenario qOps cfgToyEsNoiseless =
      .error (.expectedWalkerEngine cfgToyEsNoiseless.engine) ∧
    runOptimizerScenario qOps cfgWalkerTiny =
      some (.error (.unsupportedEngine cfgWalkerTiny.engine)) ∧
    runOptimizerScenario qOps cfgToyEsBogusObjective =
      some (.error (.keyError cfgToyEsBogusObjective.objective)) ∧
    runOptimizerScenario qOps cfgCmaesBogusObjective =
      some (.error (.keyError cfgCmaesBogusObjective.objective)) ∧
    runWalkerScenario qOps { cfgWalkerTiny with objective := "a" } =
      runWalkerScenario qOps { cfgWalkerTiny with objective := "b" } :=
  ⟨(c5_fail_fast_amended (F := ℚ)).1 qOps bci0 wfn0 "bogus_preset" 2
      (by decide),
   (c5_fail_fast_amended (F := ℚ)).2.1 qOps cfgToyEsNoiseless (by decide),
   (c5_fail_fast_amended (F := ℚ)).2.2.1 qOps cfgWalkerTiny (by decide)
      (by decide),
   (c5_fail_fast_amended (F := ℚ)).2.2.2.1 qOps cfgToyEsBogusObjective rfl
      (by decide) (by decide) (by decide),
   (c5_fail_fast_amended (F := ℚ)).2.2.2.2.1 qOps cfgCmaesBogusObjective rfl
      (by decide) (by decide) (by decide) (by decide),
   (c5_fail_fast_amended (F := ℚ)).2.2.2.2.2 qOps cfgWalkerTiny "a" "b"⟩

/-- C6 (confirmed): in `aggregate_results`, the statistics rows are built
by `mkAggRow` from a method group and its `"vanilla"` baseline group, and
on every such row (i) for a non-baseline method the paired signed-rank
p-value is the NaN sentinel (`none`) whenever fewer than 2 seed-paired
observations with the baseline exist, and (ii) the ratio against the
baseline is the NaN sentinel whenever the baseline median is non-positive
or the candidate median is negative; these are returned values, not
raised errors. -/
theorem c6_nan_sentinels :
    (∀ (sq : F → F) (bci : List F → F × F)
        (wfn : List F → List F → Option F) (s e : String)
        (baselineRows : List (RunResult F)) (m : String)
        (rows : List (RunResult F)),
        m ≠ "vanilla" → (aggPaired baselineRows rows).length < 2 →
        (mkAggRow sq bci wfn s e baselineRows m rows).wilcoxonP = none) ∧
    (∀ (sq : F → F) (bci : List F → F × F)
        (wfn : List F → List F → Option F) (s e : String)
        (baselineRows : List (RunResult F)) (m : String)
        (rows : List (RunResult F)),
        medianF (baselineRows.map (fun r => r.score)) ≤ 0 ∨
          medianF (rows.map (fun r => r.score)) < 0 →
        (mkAggRow sq bci wfn s e baselineRows m rows).ratioVsVanilla = none) ∧
    (∀ (sq : F → F) (bci : List F → F × F)
        (wfn : List F → List F → Option F) (results : List (RunResult F))
        (row : AggregateResult F), row ∈ aggregateResults sq bci wfn results →
        ∃ s e baselineRows m rows,
          row = mkAggRow sq bci wfn s e baselineRows m rows) := by
  refine ⟨?_, ?_, ?_⟩
  · intro sq bci wfn s e baselineRows m rows hm hlen
    have hcond : ¬ (0 < (baselineRows.map (fun r => r.score)).length ∧
        2 ≤ (aggPaired baselineRows rows).length ∧ m ≠ "vanilla") :=
      fun hc => absurd hc.2.1 (not_le.mpr hlen)
    simp only [mkAggRow, if_neg hcond]
  · intro sq bci wfn s e baselineRows m rows h
    by_cases hb : 0 < (baselineRows.map (fun r => r.score)).length
    · simp only [mkAggRow, if_pos hb, safeRatio, if_pos h]
    · simp only [mkAggRow, if_neg hb]
  · intro sq bci wfn results row hmem
    unfold aggregateResults at hmem
    rw [List.mem_flatMap] at hmem
    obtain ⟨pair, _, hrow⟩ := hmem
    rw [List.mem_map] at hrow
    obtain ⟨mr, _, heq⟩ := hrow
    exact ⟨pair.1.1, pair.1.2, (dictGet pair.2 "vanilla").getD [], mr.1, mr.2,
      heq.symm⟩

set_option maxRecDepth 100000 in
/-- C6 witness: a method group with no pairable baseline rows has `none`
for both the p-value and the ratio, and the single aggregate row of a
one-result input arises as `mkAggRow` of its groups. -/
theorem c6_witness :
    (mkAggRow (fun x : ℚ => x) bci0 wfn0 "s" "e" [] "phasewall" []).wilcoxonP =
      none ∧
    (mkAggRow (fun x : ℚ => x) bci0 wfn0 "s" "e" [] "phasewall" []).ratioVsVanilla =
      none ∧
    (∃ s e baselineRows m rows,
      mkAggRow (fun x : ℚ => x) bci0 wfn0 "s" "e" [sampleRunResult] "vanilla"
          [sampleRunResult] =
        mkAggRow (fun x : ℚ => x) bci0 wfn0 s e baselineRows m rows) :=
  ⟨c6_nan_sentinels.1 (fun x : ℚ => x) bci0 wfn0 "s" "e" [] "phasewall" []
      (by decide) (by decide),
   c6_nan_sentinels.2.1 (fun x : ℚ => x) bci0 wfn0 "s" "e" [] "phasewall" []
      (Or.inl (by norm_num [medianF, sortLe])),
   c6_nan_sentinels.2.2 (fun x : ℚ => x) bci0 wfn0 [sampleRunResult] _
      (by with_unfolding_all decide)⟩

theorem optimizerMethodRun_no_noise (ops : Ops F) (cfg : ScenarioConfig F)
    (hnoise : cfg.noiseStd = 0) (sd : Int) (m : String) :
    optimizerMethodRun ops cfg sd m =
      (optimizerEngineRun ops cfg sd false).map
        (Except.map (optimizerRunResult ops cfg m sd)) := by
  have hdec : decide ((0 : F) < cfg.noiseStd) = false := by
    rw [hnoise]
    exact decide_eq_false (lt_irrefl 0)
  simp only [optimizerMethodRun, hdec, Bool.and_false]

theorem c3Aux (ops : Ops F) (cfg : ScenarioConfig F)
    (hnoise : cfg.noiseStd = 0) : ∀ seeds : List Int,
    (seqOE (seeds.flatMap (fun sd =>
        [optimizerMethodRun ops cfg sd "vanilla",
         optimizerMethodRun ops cfg sd "phasewall"]))).map
      (Except.map (fun rs =>
        (rs.filter (fun r => r.method == "phasewall")).map (fun r => r.score))) =
    (seqOE (seeds.flatMap (fun sd =>
        [optimizerMethodRun ops cfg sd "vanilla",
         optimizerMethodRun ops cfg sd "phasewall"]))).map
      (Except.map (fun rs =>
        (rs.filter (fun r => r.method == "vanilla")).map (fun r => r.score))) := by
  intro seeds
  induction seeds with
  | nil => rfl
  | cons sd rest ih =>
    simp only [List.flatMap_cons, List.cons_append, List.nil_append]
    rw [optimizerMethodRun_no_noise ops cfg hnoise sd "vanilla",
      optimizerMethodRun_no_noise ops cfg hnoise sd "phasewall"]
    cases hrun : optimizerEngineRun ops cfg sd false with
    | none => rfl
    | some ex =>
      cases ex with
      | error e => rfl
      | ok run =>
        simp only [Option.map_some', Except.map]
        show (seqOE (some (.ok (optimizerRunResult ops cfg "vanilla" sd run)) ::
            some (.ok (optimizerRunResult ops cfg "phasewall" sd run)) ::
            rest.flatMap _)).map _ = _
        cases hrest : seqOE (rest.flatMap (fun sd =>
            [optimizerMethodRun ops cfg sd "vanilla",
             optimizerMethodRun ops cfg sd "phasewall"])) with
        | none =>
          simp only [seqOE, hrest]
          rfl
        | some ex2 =>
          cases ex2 with
          | error e2 =>
            simp only [seqOE, hrest]
            rfl
          | ok rs =>
            rw [hrest] at ih
            simp only [Option.map_some', Except.map, Option.some.injEq,
              Except.ok.injEq] at ih
            simp only [seqOE, hrest, Option.map_some', Except.map,
              Option.some.injEq, Except.ok.injEq]
            simp [List.filter_cons, optimizerRunResult, ih]

/-- C3 (confirmed): for an optimizer scenario (`toy_es` or `cmaes_style`)
with `noise_std = 0`, the perturbation gate is off for both methods, so
the `"phasewall"` runs coincide with the `"vanilla"` runs seed by seed:
the ordered score lists are identical, the median final scores are equal,
and in particular the phasewall median is at most the vanilla median
(with zero tolerance). -/
theorem c3_no_noise_no_regression (ops : Ops F) (cfg : ScenarioConfig F)
    (heng : cfg.engine = "toy_es" ∨ cfg.engine = "cmaes_style")
    (hnoise : cfg.noiseStd = 0) :
    optMethodScores ops cfg "phasewall" = optMethodScores ops cfg "vanilla" ∧
    optMethodMedian ops cfg "phasewall" = optMethodMedian ops cfg "vanilla" ∧
    ∀ mp mv, optMethodMedian ops cfg "phasewall" = some (.ok mp) →
      optMethodMedian ops cfg "vanilla" = some (.ok mv) → mp ≤ mv := by
  have hneg : ¬ (cfg.engine ≠ "toy_es" ∧ cfg.engine ≠ "cmaes_style") := by
    rcases heng with h | h
    · exact fun hc => hc.1 h
    · exact fun hc => hc.2 h
  have hsc : optMethodScores ops cfg "phasewall" =
      optMethodScores ops cfg "vanilla" := by
    unfold optMethodScores runOptimizerScenario
    rw [if_neg hneg]
    exact c3Aux ops cfg hnoise cfg.seeds
  have hmed : optMethodMedian ops cfg "phasewall" =
      optMethodMedian ops cfg "vanilla" := by
    unfold optMethodMedian
    rw [hsc]
  refine ⟨hsc, hmed, fun mp mv h1 h2 => ?_⟩
  rw [hmed, h2] at h1
  exact le_of_eq (Option.some.inj h1 |> Except.ok.inj).symm

/-- C3 witness: a concrete noise-free `toy_es` scenario. -/
theorem c3_witness :
    optMethodScores qOps cfgToyEsNoiseless "phasewall" =
      optMethodScores qOps cfgToyEsNoiseless "vanilla" ∧
    optMethodMedian qOps cfgToyEsNoiseless "phasewall" =
      optMethodMedian qOps cfgToyEsNoiseless "vanilla" :=
  ⟨(c3_no_noise_no_regression qOps cfgToyEsNoiseless (Or.inl rfl) rfl).1,
   (c3_no_noise_no_regression qOps cfgToyEsNoiseless (Or.inl rfl) rfl).2.1⟩

theorem toyEsLoop_spec (ops : Ops F) (objective : String)
    (dim budget pop : Nat) (noiseStd : F) (enabled : Bool) (strength r0 : F)
    (hp : 0 < pop) :
    ∀ (fuel : Nat) (mean : Vec F) (sigma : F) (best : Option F) (evals : Nat)
      (hist : List F) (g : Rng F), budget ≤ evals + fuel * pop →
      ∃ r, toyEsLoop ops objective dim budget pop noiseStd enabled strength r0
          fuel mean sigma best evals hist g = some r ∧
        ∀ run, r = .ok run →
          run.evalCount = evals + pop * ((budget - evals + pop - 1) / pop) := by
  intro fuel
  induction fuel with
  | zero =>
    intro mean sigma best evals hist g hle
    have hbe : ¬ evals < budget := by omega
    refine ⟨.ok ⟨hist.reverse, best, evals⟩, ?_, ?_⟩
    · rw [toyEsLoop, if_neg hbe]
    · intro run hrr
      have hrun : run = ⟨hist.reverse, best, evals⟩ := (Except.ok.inj hrr).symm
      rw [hrun]
      have h0 : budget - evals = 0 := by omega
      rw [h0]
      have hdiv : (0 + pop - 1) / pop = 0 := Nat.div_eq_of_lt (by omega)
      rw [hdiv]
      simp
  | succ f ih =>
    intro mean sigma best evals hist g hle
    by_cases hev : evals < budget
    · rw [toyEsLoop, if_pos hev]
      cases heb : toyEsGen ops objective dim pop noiseStd enabled strength r0
          mean sigma best g with
      | error e =>
        exact ⟨.error e, rfl, fun run hrr => nomatch hrr⟩
      | ok out =>
        obtain ⟨r, hr, hform⟩ := ih out.mean out.sigma (some out.best)
          (evals + pop) (out.best :: hist) out.g
          (by
            have hms : (f + 1) * pop = f * pop + pop := by ring
            omega)
        refine ⟨r, hr, fun run hrr => ?_⟩
        rw [hform run hrr]
        have hd : 1 ≤ budget - evals := by omega
        have e1 : budget - evals + pop - 1 = budget - evals - 1 + pop := by
          omega
        by_cases hc : pop ≤ budget - evals
        · have e2 : budget - (evals + pop) + pop - 1 =
              budget - evals - 1 := by omega
          rw [e2, e1, Nat.add_div_right _ hp]
          ring
        · have e2 : budget - (evals + pop) = 0 := by omega
          rw [e2, e1, Nat.add_div_right _ hp]
          have h01 : (0 + pop - 1) / pop = 0 := Nat.div_eq_of_lt (by omega)
          have h02 : (budget - evals - 1) / pop = 0 :=
            Nat.div_eq_of_lt (by omega)
          rw [h01, h02]
          ring
    · refine ⟨.ok ⟨hist.reverse, best, evals⟩, ?_, ?_⟩
      · rw [toyEsLoop, if_neg hev]
      · intro run hrr
        have hrun : run = ⟨hist.reverse, best, evals⟩ := (Except.ok.inj hrr).symm
        rw [hrun]
        have h0 : budget - evals = 0 := by omega
        rw [h0]
        have hdiv : (0 + pop - 1) / pop = 0 := Nat.div_eq_of_lt (by omega)
        rw [hdiv]
        simp

/-- C7 (confirmed): for every positive evaluation budget and positive
population size, `_run_toy_es` terminates, and on a normal return (any
objective in the map) its evaluation count is the least multiple of
`population_size` that is at least `eval_budget`: the final generation is
executed in full, never truncated. -/
theorem c7_toy_es_terminates (ops : Ops F) (objective : String)
    (dim budget pop : Nat) (noiseStd : F) (seed : Int) (enabled : Bool)
    (strength : F) (hb : 0 < budget) (hp : 0 < pop) :
    ∃ r, runToyEs ops objective dim budget pop noiseStd seed enabled strength =
        some r ∧
      ∀ run, r = .ok run →
        budget ≤ run.evalCount ∧ pop ∣ run.evalCount ∧
        run.evalCount < budget + pop ∧
        ∀ m : Nat, pop ∣ m → budget ≤ m → run.evalCount ≤ m := by
  obtain ⟨r, hr, hform⟩ := toyEsLoop_spec ops objective dim budget pop noiseStd
    enabled strength (ops.sqrt ((dim : F) - 2 / 3)) hp budget
    (List.replicate dim 3) 2 none 0 [] (mkRng ops seed)
    (by
      have := Nat.le_mul_of_pos_right budget hp
      omega)
  refine ⟨r, hr, fun run hrr => ?_⟩
  have hc := hform run hrr
  simp only [Nat.sub_zero, Nat.zero_add] at hc
  have hdm := Nat.div_add_mod (budget + pop - 1) pop
  have hmod : (budget + pop - 1) % pop < pop := Nat.mod_lt _ hp
  set q := (budget + pop - 1) / pop with hq
  set md := (budget + pop - 1) % pop with hmd
  have hle1 : budget ≤ pop * q := by omega
  have hlt1 : pop * q < budget + pop := by omega
  refine ⟨hc ▸ hle1, ⟨q, hc⟩, hc ▸ hlt1, fun m hdvd hm => ?_⟩
  obtain ⟨k, rfl⟩ := hdvd
  have hltk : pop * q < pop * (k + 1) := by
    have : pop * (k + 1) = pop * k + pop := by ring
    omega
  have hqk : q < k + 1 := Nat.lt_of_mul_lt_mul_left hltk
  rw [hc]
  exact Nat.mul_le_mul_left pop (by omega)

/-- C7 witness: budget `3` with population `2` (so the least multiple is
`4` and the final generation is executed in full). -/
theorem c7_witness :
    ∃ r, runToyEs qOps "sphere" 1 3 2 0 0 false 0 = some r ∧
      ∀ run, r = .ok run →
        3 ≤ run.evalCount ∧ 2 ∣ run.evalCount ∧ run.evalCount < 3 + 2 ∧
        ∀ m : Nat, 2 ∣ m → 3 ≤ m → run.evalCount ≤ m :=
  c7_toy_es_terminates qOps "sphere" 1 3 2 0 0 false 0 (by decide) (by decide)

theorem dictAppend_fresh {κ α : Type} [DecidableEq κ] :
    ∀ (d : List (κ × List α)) (k : κ) (x : α), (∀ e ∈ d, e.1 ≠ k) →
      dictAppend d k x = d ++ [(k, [x])] := by
  intro d
  induction d with
  | nil => intro k x _; rfl
  | cons e rest ih =>
    intro k x h
    obtain ⟨k', xs⟩ := e
    have hne : k' ≠ k := h (k', xs) (List.mem_cons_self _ _)
    simp only [dictAppend, if_neg hne, List.cons_append]
    rw [ih k x (fun e he => h e (List.mem_cons_of_mem _ he))]

theorem dictAppend_last {κ α : Type} [DecidableEq κ] :
    ∀ (pre : List (κ × List α)) (k : κ) (cur : List α) (x : α),
      (∀ e ∈ pre, e.1 ≠ k) →
      dictAppend (pre ++ [(k, cur)]) k x = pre ++ [(k, cur ++ [x])] := by
  intro pre
  induction pre with
  | nil =>
    intro k cur x _
    simp [dictAppend]
  | cons e rest ih =>
    intro k cur x h
    obtain ⟨k', xs⟩ := e
    have hne : k' ≠ k := h (k', xs) (List.mem_cons_self _ _)
    simp only [List.cons_append, dictAppend, if_neg hne]
    exact congrArg (List.cons (k', xs))
      (ih k cur x (fun e he => h e (List.mem_cons_of_mem _ he)))

theorem groupFold_hom {R K : Type} [DecidableEq K] (keyOf : R → K) :
    ∀ (l : List R) (pre : List (K × List R)) (k : K) (cur : List R),
      (∀ r ∈ l, keyOf r = k) → (∀ e ∈ pre, e.1 ≠ k) →
      List.foldl (fun acc r => dictAppend acc (keyOf r) r)
        (pre ++ [(k, cur)]) l = pre ++ [(k, cur ++ l)] := by
  intro l
  induction l with
  | nil => intro pre k cur _ _; simp
  | cons r rs ih =>
    intro pre k cur hl hpre
    have hk : keyOf r = k := hl r (List.mem_cons_self _ _)
    simp only [List.foldl_cons, hk]
    rw [dictAppend_last pre k cur r hpre,
      ih pre k (cur ++ [r]) (fun x hx => hl x (List.mem_cons_of_mem _ hx)) hpre]
    simp

theorem groupedOf_two_blocks (A B : List (RunResult F))
    (kv kp : String × String × String)
    (hA : ∀ r ∈ A, (r.scenarioName, r.engine, r.method) = kv)
    (hB : ∀ r ∈ B, (r.scenarioName, r.engine, r.method) = kp)
    (hAne : A ≠ []) (hBne : B ≠ []) (hkk : kv ≠ kp) :
    groupedOf (A ++ B) = [(kv, A), (kp, B)] := by
  obtain ⟨a, A', rfl⟩ := List.exists_cons_of_ne_nil hAne
  obtain ⟨b, B', rfl⟩ := List.exists_cons_of_ne_nil hBne
  unfold groupedOf
  rw [List.foldl_append]
  have hka : (a.scenarioName, a.engine, a.method) = kv :=
    hA a (List.mem_cons_self _ _)
  have hkb : (b.scenarioName, b.engine, b.method) = kp :=
    hB b (List.mem_cons_self _ _)
  have h1 : List.foldl
      (fun acc r => dictAppend acc (r.scenarioName, r.engine, r.method) r)
      [] (a :: A') = [(kv, a :: A')] := by
    simp only [List.foldl_cons, hka]
    exact groupFold_hom (fun r => (r.scenarioName, r.engine, r.method)) A'
      [] kv [a] (fun x hx => hA x (List.mem_cons_of_mem _ hx))
      (fun e he => absurd he (List.not_mem_nil e))
  rw [h1]
  simp only [List.foldl_cons, hkb]
  have hfresh : ∀ e ∈ [(kv, a :: A')], e.1 ≠ kp := by
    intro e he h
    rw [List.mem_singleton] at he
    rw [he] at h
    exact hkk h
  rw [dictAppend_fresh [(kv, a :: A')] kp b hfresh]
  exact groupFold_hom (fun r => (r.scenarioName, r.engine, r.method)) B'
    [(kv, a :: A')] kp [b] (fun x hx => hB x (List.mem_cons_of_mem _ hx)) hfresh

theorem dictSet_fresh {κ α : Type} [DecidableEq κ] :
    ∀ (d : List (κ × α)) (k : κ) (v : α), (∀ e ∈ d, e.1 ≠ k) →
      dictSet d k v = d ++ [(k, v)] := by
  intro d
  induction d with
  | nil => intro k v _; rfl
  | cons e rest ih =>
    intro k v h
    obtain ⟨k', w⟩ := e
    have hne : k' ≠ k := h (k', w) (List.mem_cons_self _ _)
    simp only [dictSet, if_neg hne, List.cons_append]
    rw [ih k v (fun e he => h e (List.mem_cons_of_mem _ he))]

theorem foldl_dictSet_disjoint {κ α : Type} [DecidableEq κ] :
    ∀ (l : List (κ × α)) (acc : List (κ × α)),
      (∀ p ∈ l, ∀ e ∈ acc, e.1 ≠ p.1) → (l.map Prod.fst).Nodup →
      List.foldl (fun acc p => dictSet acc p.1 p.2) acc l = acc ++ l := by
  intro l
  induction l with
  | nil => intro acc _ _; simp
  | cons p ps ih =>
    intro acc hdis hnd
    simp only [List.foldl_cons]
    rw [dictSet_fresh acc p.1 p.2 (fun e he => hdis p (List.mem_cons_self _ _) e he)]
    simp only [List.map_cons, List.nodup_cons] at hnd
    rw [ih (acc ++ [(p.1, p.2)]) ?hdis hnd.2]
    · simp
    · intro q hq e he
      rw [List.mem_append] at he
      rcases he with he | he
      · exact hdis q (List.mem_cons_of_mem _ hq) e he
      · rw [List.mem_singleton] at he
        rw [he]
        intro hc
        exact hnd.1 (hc ▸ List.mem_map_of_mem Prod.fst hq)

theorem dictOfPairs_nodup {κ α : Type} [DecidableEq κ]
    (l : List (κ × α)) (hnd : (l.map Prod.fst).Nodup) : dictOfPairs l = l := by
  unfold dictOfPairs
  rw [foldl_dictSet_disjoint l []
    (fun p _ e he => absurd he (List.not_mem_nil e)) hnd]
  rfl

theorem dictGet_nodup_mem {κ α : Type} [DecidableEq κ] :
    ∀ (l : List (κ × α)) (k : κ) (v : α), (l.map Prod.fst).Nodup →
      (k, v) ∈ l → dictGet l k = some v := by
  intro l
  induction l with
  | nil => intro k v _ hmem; exact absurd hmem (List.not_mem_nil _)
  | cons e rest ih =>
    intro k v hnd hmem
    obtain ⟨k', w⟩ := e
    simp only [List.map_cons, List.nodup_cons] at hnd
    rcases List.mem_cons.mp hmem with heq | htail
    · have h1 : k = k' := congrArg Prod.fst heq
      have h2 : v = w := congrArg Prod.snd heq
      rw [dictGet, if_pos h1.symm, h2]
    · by_cases hk : k' = k
      · exfalso
        apply hnd.1
        rw [hk]
        exact List.mem_map_of_mem Prod.fst htail
      · rw [dictGet, if_neg hk]
        exact ih k v hnd.2 htail

theorem filterMap_eq_map_of {α β : Type} (f : α → Option β) (gm : α → β) :
    ∀ l : List α, (∀ x ∈ l, f x = some (gm x)) → l.filterMap f = l.map gm := by
  intro l
  induction l with
  | nil => intro _; rfl
  | cons x xs ih =>
    intro h
    rw [List.filterMap_cons, h x (List.mem_cons_self _ _), List.map_cons,
      ih (fun y hy => h y (List.mem_cons_of_mem _ hy))]

theorem aggPaired_canonical (s e : String) (pairs : List (Int × F × F))
    (hnd : (pairs.map (fun q => q.1)).Nodup) :
    aggPaired (pairs.map (fun q => ⟨s, e, "vanilla", q.1, q.2.1, []⟩))
        (pairs.map (fun q => ⟨s, e, "phasewall", q.1, q.2.2, []⟩)) =
      pairs.map (fun q => (q.2.1, q.2.2)) := by
  unfold aggPaired
  rw [List.map_map]
  have hmap : ((fun b : RunResult F => (b.seed, b.score)) ∘
      fun q : Int × F × F =>
        (⟨s, e, "vanilla", q.1, q.2.1, []⟩ : RunResult F)) =
      fun q : Int × F × F => (q.1, q.2.1) := rfl
  rw [hmap]
  have hkeys : ((pairs.map (fun q : Int × F × F => (q.1, q.2.1))).map
      Prod.fst).Nodup := by
    rw [List.map_map]
    exact hnd
  rw [dictOfPairs_nodup _ hkeys, List.filterMap_map]
  apply filterMap_eq_map_of
  intro q hq
  show (dictGet (pairs.map fun q : Int × F × F => (q.1, q.2.1)) q.1).map
      (fun bs => (bs, q.2.2)) = some (q.2.1, q.2.2)
  rw [dictGet_nodup_mem _ q.1 q.2.1 hkeys
    (List.mem_map.mpr ⟨q, hq, rfl⟩)]
  rfl

/-- C2 (corrected): on an input containing, for one (scenario, engine)
pair, a `"vanilla"` group and a `"phasewall"` group over the same list of
at least two distinct seeds, the `"phasewall"` aggregate row reports
win_rate equal to the exact fraction of seeds on which the phasewall score
is strictly lower than the paired vanilla score, and ratio_vs_vanilla
equal to `median(phasewall) / max(1e-12, median(vanilla))` — the source
floors the denominator at `1e-12`, so the ratio equals the exact median
ratio only when the vanilla median is at least `1e-12` (given a positive
vanilla median and a non-negative phasewall median). -/
theorem c2_aggregate_amended (sq : F → F) (bci : List F → F × F)
    (wfn : List F → List F → Option F) (s e : String)
    (pairs : List (Int × F × F)) (hlen : 2 ≤ pairs.length)
    (hnd : (pairs.map (fun q => q.1)).Nodup)
    (hv : 0 < medianF (pairs.map (fun q => q.2.1)))
    (hp : 0 ≤ medianF (pairs.map (fun q => q.2.2))) :
    ((aggregateResults sq bci wfn (mkPairedInput s e pairs)).find?
        (fun r => r.method == "phasewall")).map
      (fun row => (row.winRate, row.ratioVsVanilla)) =
      some
        (some ((pairs.countP (fun q => decide (q.2.2 < q.2.1)) : F) /
          (pairs.length : F)),
         some (medianF (pairs.map (fun q => q.2.2)) /
           max (1 / 10 ^ 12) (medianF (pairs.map (fun q => q.2.1))))) := by
  set A := pairs.map (fun q : Int × F × F =>
    (⟨s, e, "vanilla", q.1, q.2.1, []⟩ : RunResult F)) with hAdef
  set B := pairs.map (fun q : Int × F × F =>
    (⟨s, e, "phasewall", q.1, q.2.2, []⟩ : RunResult F)) with hBdef
  have hpairs_ne : pairs ≠ [] := by
    intro h
    rw [h] at hlen
    simp at hlen
  have hAne : A ≠ [] := by
    rw [hAdef]
    simpa using hpairs_ne
  have hBne : B ≠ [] := by
    rw [hBdef]
    simpa using hpairs_ne
  have hgrp : groupedOf (mkPairedInput s e pairs) =
      [((s, e, "vanilla"), A), ((s, e, "phasewall"), B)] := by
    apply groupedOf_two_blocks
    · intro r hr
      obtain ⟨q, _, rfl⟩ := List.mem_map.mp hr
      rfl
    · intro r hr
      obtain ⟨q, _, rfl⟩ := List.mem_map.mp hr
      rfl
    · exact hAne
    · exact hBne
    · intro hcontra
      have h3 : ("vanilla" : String) = "phasewall" :=
        congrArg (fun t : String × String × String => t.2.2) hcontra
      exact absurd h3 (by decide)
  have hbp : byPairOf (mkPairedInput s e pairs) =
      [((s, e), [("vanilla", A), ("phasewall", B)])] := by
    unfold byPairOf
    rw [hgrp]
    simp [dictSetInner, dictSet]
  unfold aggregateResults
  rw [hbp]
  have hsl : strLeB "vanilla" "phasewall" = false := by
    with_unfolding_all rfl
  simp only [sortLe, List.foldl_cons, List.foldl_nil, insSorted, hsl,
    Bool.false_eq_true, if_false, List.flatMap_cons, List.flatMap_nil,
    List.map_cons, List.map_nil, List.append_nil, dictGet, eq_self_iff_true,
    if_true, Option.getD_some]
  rw [List.find?_cons_of_pos _ (by rfl)]
  simp only [Option.map_some']
  have hbase : A.map (fun r => r.score) = pairs.map (fun q => q.2.1) := by
    rw [hAdef, List.map_map]
    rfl
  have hscores : B.map (fun r => r.score) = pairs.map (fun q => q.2.2) := by
    rw [hBdef, List.map_map]
    rfl
  have hpaired : aggPaired A B = pairs.map (fun q => (q.2.1, q.2.2)) :=
    aggPaired_canonical s e pairs hnd
  have hblen : 0 < (A.map (fun r => r.score)).length := by
    rw [hbase, List.length_map]
    omega
  have hplen2 : 2 ≤ (aggPaired A B).length := by
    rw [hpaired, List.length_map]
    exact hlen
  have hwin : (mkAggRow sq bci wfn s e A "phasewall" B).winRate =
      some ((pairs.countP (fun q => decide (q.2.2 < q.2.1)) : F) /
        (pairs.length : F)) := by
    simp only [mkAggRow, if_pos hblen,
      if_pos (And.intro hplen2 (by decide : ("phasewall" : String) ≠ "vanilla"))]
    rw [hpaired, List.countP_map, List.length_map]
    rfl
  have hratio : (mkAggRow sq bci wfn s e A "phasewall" B).ratioVsVanilla =
      some (medianF (pairs.map (fun q => q.2.2)) /
        max (1 / 10 ^ 12) (medianF (pairs.map (fun q => q.2.1)))) := by
    simp only [mkAggRow, if_pos hblen, safeRatio]
    rw [hbase, hscores]
    rw [if_neg (by
      push_neg
      exact ⟨hv, hp⟩)]
  rw [hwin, hratio]

set_option maxRecDepth 400000 in
/-- C2 counterexample: a paired input whose vanilla scores are all
`1/(2*10^12)` (median positive) and whose phasewall scores are all `1`
(median non-negative).  The claim demands a reported ratio of
`median(phasewall)/median(vanilla) = 2*10^12` up to floating-point
tolerance, but `_safe_ratio` floors the denominator at `1e-12` and the
code reports `10^12` — half the claimed value. -/
theorem c2_counterexample :
    ((aggregateResults (fun x : ℚ => x) bci0 wfn0
        (mkPairedInput "s" "toy_es" tinyBaselinePairs)).find?
      (fun r => r.method == "phasewall")).map (fun row => row.ratioVsVanilla) =
      some (some (10 ^ 12)) ∧
    medianF (tinyBaselinePairs.map (fun q => q.2.2)) /
      medianF (tinyBaselinePairs.map (fun q => q.2.1)) = 2 * 10 ^ 12 ∧
    (0 : ℚ) < medianF (tinyBaselinePairs.map (fun q => q.2.1)) ∧
    (0 : ℚ) ≤ medianF (tinyBaselinePairs.map (fun q => q.2.2)) ∧
    (10 ^ 12 : ℚ) ≠ 2 * 10 ^ 12 :=
  ⟨by with_unfolding_all rfl, by with_unfolding_all rfl,
   by with_unfolding_all decide, by with_unfolding_all decide, by norm_num⟩

/-- C2 witness: the amended aggregation property on two paired seeds with
ordinary score magnitudes. -/
theorem c2_witness :
    ((aggregateResults (fun x : ℚ => x) bci0 wfn0
        (mkPairedInput "s" "toy_es" samplePairs)).find?
      (fun r => r.method == "phasewall")).map
      (fun row => (row.winRate, row.ratioVsVanilla)) =
      some
        (some ((samplePairs.countP (fun q => decide (q.2.2 < q.2.1)) : ℚ) /
          (samplePairs.length : ℚ)),
         some (medianF (samplePairs.map (fun q => q.2.2)) /
           max (1 / 10 ^ 12) (medianF (samplePairs.map (fun q => q.2.1))))) :=
  c2_aggregate_amended (fun x : ℚ => x) bci0 wfn0 "s" "toy_es" samplePairs
    (by decide) (by decide) (by with_unfolding_all decide)
    (by with_unfolding_all decide)

end PhasewallPoc
